import Mathlib

/-!
Verification development for the v3llm retrieval subsystem.

Shallow embedding of `src/rag/retriever.py`, `src/rag/bm25_index.py`,
`src/rag/chunker.py` and `src/rag/config.py`.  Python floats are modelled
by `ℚ`; Python dicts (which preserve insertion order) are modelled by
association lists with explicit update functions mirroring dict-update
semantics; Python's stable `sort`/`sorted` is modelled by a stable
insertion sort.  Fallible external calls (the Chroma collection) are
modelled in the `Except Unit` monad.
-/

/- ── configuration constants (src/rag/config.py) ── -/

def RRF_K : ℚ := 60
def BM25_WEIGHT : ℚ := 1
def VECTOR_WEIGHT : ℚ := 1
def TOP_K : Nat := 5
def BM25_TOP_K_MULTIPLIER : Nat := 2
def MULTI_QUERY_ENABLED : Bool := true
def MULTI_QUERY_COUNT : Nat := 3
def HYBRID_SEARCH_ENABLED : Bool := true

def SPECIALTIES : List String :=
  ["내과", "외과", "소아청소년과", "산부인과", "정신건강의학과",
   "정형외과", "신경외과", "흉부외과", "성형외과", "안과",
   "이비인후과", "피부과", "비뇨기과", "영상의학과", "방사선종양학과",
   "마취통증의학과", "신경과", "재활의학과", "결핵과", "진단검사의학과",
   "병리과", "예방의학과", "가정의학과", "직업환경의학과", "핵의학과",
   "응급의학과"]

def SPECIALTY_ALIASES : List (String × List String) :=
  [("병리과", ["병리학회", "병리학", "병리"]),
   ("이비인후과", ["이비인후과학회", "대한이비인후과학회", "이비인후"])]

/- ── generic string / list utilities ── -/

/-- Python substring containment `needle in hay`, on char lists. -/
def containsSub (needle : List Char) : List Char → Bool
  | [] => needle.isEmpty
  | c :: rest => needle.isPrefixOf (c :: rest) || containsSub needle rest

/-- Python `needle in hay` on strings. -/
def containsStr (hay needle : String) : Bool :=
  containsSub needle.data hay.data

/-- Python `s.replace(old, new, 1)` on char lists: replace the first
occurrence of `old` (leftmost) by `new`. -/
def replaceFirstSub (old new : List Char) : List Char → List Char
  | [] => if old.isEmpty then new else []
  | c :: rest =>
    if old.isPrefixOf (c :: rest) then new ++ (c :: rest).drop old.length
    else c :: replaceFirstSub old new rest

/-- Python `s.replace(old, new, 1)` on strings. -/
def replaceFirst (s old new : String) : String :=
  ⟨replaceFirstSub old.data new.data s.data⟩

/-- Python `s.strip()` (kernel-computable, unlike `String.trim`):
drop whitespace from both ends. -/
def strTrim (s : String) : String :=
  ⟨((s.data.dropWhile Char.isWhitespace).reverse.dropWhile Char.isWhitespace).reverse⟩

/-- Python `s.startswith(pre)`. -/
def strStartsWith (s pre : String) : Bool := pre.data.isPrefixOf s.data

/-- Python `s.endswith(suf)`. -/
def strEndsWith (s suf : String) : Bool := suf.data.reverse.isPrefixOf s.data.reverse

/-- Stable insertion used by `sortStable`: `x` (the earlier element) is
placed before the first `y` with `leB x y`. -/
def insStable (leB : α → α → Bool) (x : α) : List α → List α
  | [] => [x]
  | y :: ys => if leB x y then x :: y :: ys else y :: insStable leB x ys

/-- Stable sort modelling Python's `sorted`/`list.sort`: an earlier
element `x` ends up before a later `y` exactly when `leB x y`. -/
def sortStable (leB : α → α → Bool) (l : List α) : List α :=
  l.foldr (insStable leB) []

/-- Python `sorted(l, key=len, reverse=True)`: stable descending sort by
string length. -/
def sortLenDesc (l : List String) : List String :=
  sortStable (fun a b => b.length ≤ a.length) l

theorem insStable_perm (leB : α → α → Bool) (x : α) (l : List α) :
    (insStable leB x l).Perm (x :: l) := by
  induction l with
  | nil => simp [insStable]
  | cons y ys ih =>
    cases h : leB x y
    · simp only [insStable, h, Bool.false_eq_true, if_false]
      exact ((ih.cons y).trans (List.Perm.swap x y ys))
    · simp [insStable, h]

theorem sortStable_perm (leB : α → α → Bool) (l : List α) :
    (sortStable leB l).Perm l := by
  induction l with
  | nil => simp [sortStable]
  | cons x xs ih =>
    have h1 : sortStable leB (x :: xs) = insStable leB x (sortStable leB xs) := rfl
    rw [h1]
    exact (insStable_perm leB x (sortStable leB xs)).trans (ih.cons x)

theorem insStable_pairwise (leB : α → α → Bool)
    (htot : ∀ a b, leB a b = false → leB b a = true)
    (htrans : ∀ a b c, leB a b = true → leB b c = true → leB a c = true)
    (x : α) (l : List α)
    (hl : l.Pairwise (fun a b => leB a b = true)) :
    (insStable leB x l).Pairwise (fun a b => leB a b = true) := by
  induction l with
  | nil => simp [insStable]
  | cons y ys ih =>
    rcases List.pairwise_cons.mp hl with ⟨hy, hys⟩
    cases h : leB x y
    · simp only [insStable, h, Bool.false_eq_true, if_false]
      refine List.pairwise_cons.mpr ⟨?_, ih hys⟩
      intro b hb
      have hb2 : b ∈ x :: ys := (insStable_perm leB x ys).mem_iff.mp hb
      rcases List.mem_cons.mp hb2 with hb2 | hb2
      · exact hb2 ▸ htot x y h
      · exact hy b hb2
    · simp only [insStable, h, if_true]
      refine List.pairwise_cons.mpr ⟨?_, hl⟩
      intro b hb
      rcases List.mem_cons.mp hb with hb | hb
      · exact hb ▸ h
      · exact htrans x y b h (hy b hb)

theorem sortStable_pairwise (leB : α → α → Bool)
    (htot : ∀ a b, leB a b = false → leB b a = true)
    (htrans : ∀ a b c, leB a b = true → leB b c = true → leB a c = true)
    (l : List α) :
    (sortStable leB l).Pairwise (fun a b => leB a b = true) := by
  induction l with
  | nil => simp [sortStable]
  | cons x xs ih => exact insStable_pairwise leB htot htrans x _ ih

/- ── Reciprocal Rank Fusion (src/rag/retriever.py, _reciprocal_rank_fusion) ──

The fused score depends only on the chunk ids of the two input lists, so
the score table is embedded over lists of ids.  `addScore` mirrors the
Python dict update `rrf_scores[doc_id] = rrf_scores.get(doc_id, 0.0) + v`
(an existing key keeps its position, a new key is appended). -/

def addScore : List (String × ℚ) → String → ℚ → List (String × ℚ)
  | [], a, v => [(a, v)]
  | (k, x) :: rest, a, v =>
    if k = a then (k, x + v) :: rest else (k, x) :: addScore rest a v

/-- `rrf_scores.get(a, 0.0)`. -/
def getScore : List (String × ℚ) → String → ℚ
  | [], _ => 0
  | (k, x) :: rest, a => if k = a then x else getScore rest a

/-- One `for rank, item in enumerate(results, start=1)` accumulation loop
of `_reciprocal_rank_fusion`, contributing `w / (RRF_K + rank)` per id. -/
def rrfAccum (w : ℚ) : List String → Nat → List (String × ℚ) → List (String × ℚ)
  | [], _, s => s
  | a :: rest, rank, s => rrfAccum w rest (rank + 1) (addScore s a (w / (RRF_K + (rank : ℚ))))

/-- The full `rrf_scores` table: the vector loop (weight `VECTOR_WEIGHT`)
followed by the BM25 loop (weight `BM25_WEIGHT`), both with 1-based ranks. -/
def rrfScores (vres bres : List String) : List (String × ℚ) :=
  rrfAccum BM25_WEIGHT bres 1 (rrfAccum VECTOR_WEIGHT vres 1 [])

/-- `sorted(rrf_scores, key=rrf_scores.get, reverse=True)[:top_k]`:
stable descending sort of the score table by score, truncated, projected
to ids. -/
def fusedIds (vres bres : List String) (top_k : Nat) : List String :=
  ((sortStable (fun a b : String × ℚ => decide (b.2 ≤ a.2)) (rrfScores vres bres)).take top_k).map (fun p => p.1)

def keysOf (s : List (String × ℚ)) : List String := s.map (fun p => p.1)

theorem getScore_addScore (s : List (String × ℚ)) (a : String) (v : ℚ) (j : String) :
    getScore (addScore s a v) j = getScore s j + (if j = a then v else 0) := by
  induction s with
  | nil =>
    by_cases h : j = a
    · subst h; simp [addScore, getScore]
    · have h2 : ¬ a = j := fun hh => h hh.symm
      simp [addScore, getScore, h, h2]
  | cons p rest ih =>
    obtain ⟨k, x⟩ := p
    by_cases hk : k = a
    · subst hk
      by_cases hj : k = j
      · subst hj; simp [addScore, getScore]
      · have h2 : ¬ j = k := fun h => hj h.symm
        simp [addScore, getScore, hj, h2]
    · by_cases hj : k = j
      · subst hj
        simp [addScore, getScore, hk]
      · simp [addScore, getScore, hk, hj, ih]

theorem keysOf_addScore_of_mem (s : List (String × ℚ)) (a : String) (v : ℚ)
    (h : a ∈ keysOf s) : keysOf (addScore s a v) = keysOf s := by
  induction s with
  | nil => simp [keysOf] at h
  | cons p rest ih =>
    obtain ⟨k, x⟩ := p
    by_cases hk : k = a
    · simp [addScore, keysOf, hk]
    · have hmem : a ∈ keysOf rest := by
        simp only [keysOf, List.map_cons, List.mem_cons] at h
        rcases h with h | h
        · exact absurd h.symm hk
        · exact h
      have hrec := ih hmem
      simp only [keysOf] at hrec ⊢
      simp [addScore, hk, hrec]

theorem keysOf_addScore_of_not_mem (s : List (String × ℚ)) (a : String) (v : ℚ)
    (h : a ∉ keysOf s) : keysOf (addScore s a v) = keysOf s ++ [a] := by
  induction s with
  | nil => simp [addScore, keysOf]
  | cons p rest ih =>
    obtain ⟨k, x⟩ := p
    have hk : ¬ k = a := by
      intro hk; exact h (by simp [keysOf, hk])
    have hrest : a ∉ keysOf rest := by
      intro hm; exact h (by simp [keysOf]; right; simpa [keysOf] using hm)
    have hrec := ih hrest
    simp only [keysOf] at hrec ⊢
    simp [addScore, hk, hrec]

theorem mem_keysOf_addScore (s : List (String × ℚ)) (a : String) (v : ℚ) (j : String) :
    j ∈ keysOf (addScore s a v) ↔ j ∈ keysOf s ∨ j = a := by
  by_cases h : a ∈ keysOf s
  · rw [keysOf_addScore_of_mem s a v h]
    constructor
    · exact Or.inl
    · rintro (hj | rfl)
      · exact hj
      · exact h
  · rw [keysOf_addScore_of_not_mem s a v h]
    simp

theorem nodup_keysOf_addScore (s : List (String × ℚ)) (a : String) (v : ℚ)
    (h : (keysOf s).Nodup) : (keysOf (addScore s a v)).Nodup := by
  by_cases hm : a ∈ keysOf s
  · rw [keysOf_addScore_of_mem s a v hm]; exact h
  · rw [keysOf_addScore_of_not_mem s a v hm]
    simpa [List.nodup_append] using ⟨h, hm⟩

theorem getScore_rrfAccum_not_mem (w : ℚ) (ids : List String) (r : Nat)
    (s : List (String × ℚ)) (j : String) (hj : j ∉ ids) :
    getScore (rrfAccum w ids r s) j = getScore s j := by
  induction ids generalizing r s with
  | nil => simp [rrfAccum]
  | cons a rest ih =>
    have hja : ¬ j = a := fun h => hj (h ▸ List.mem_cons_self a rest)
    have hjr : j ∉ rest := fun h => hj (List.mem_cons_of_mem a h)
    simp only [rrfAccum]
    rw [ih (r + 1) _ hjr, getScore_addScore, if_neg hja, add_zero]

theorem getScore_rrfAccum_mem (w : ℚ) (ids : List String) (r : Nat)
    (s : List (String × ℚ)) (j : String) (hnd : ids.Nodup) (hj : j ∈ ids) :
    getScore (rrfAccum w ids r s) j
      = getScore s j + w / (RRF_K + (r : ℚ) + (ids.indexOf j : ℚ)) := by
  induction ids generalizing r s with
  | nil => simp at hj
  | cons a rest ih =>
    rcases List.nodup_cons.mp hnd with ⟨hna, hndr⟩
    by_cases hja : j = a
    · subst hja
      have hjr : j ∉ rest := hna
      simp only [rrfAccum]
      rw [getScore_rrfAccum_not_mem w rest (r + 1) _ j hjr,
          getScore_addScore, if_pos rfl, List.indexOf_cons_self]
      push_cast
      ring_nf
    · have hjr : j ∈ rest := by
        rcases List.mem_cons.mp hj with h | h
        · exact absurd h hja
        · exact h
      simp only [rrfAccum]
      rw [ih (r + 1) _ hndr hjr, getScore_addScore, if_neg hja, add_zero]
      have hne : (a == j) = false := beq_false_of_ne (fun h => hja h.symm)
      rw [List.indexOf_cons]
      simp only [hne, cond_false]
      push_cast
      ring_nf

theorem mem_keysOf_rrfAccum (w : ℚ) (ids : List String) (r : Nat)
    (s : List (String × ℚ)) (j : String) :
    j ∈ keysOf (rrfAccum w ids r s) ↔ j ∈ keysOf s ∨ j ∈ ids := by
  induction ids generalizing r s with
  | nil => simp [rrfAccum]
  | cons a rest ih =>
    simp only [rrfAccum]
    rw [ih]
    rw [mem_keysOf_addScore]
    constructor
    · rintro ((h | h) | h)
      · exact Or.inl h
      · exact Or.inr (h ▸ List.mem_cons_self a rest)
      · exact Or.inr (List.mem_cons_of_mem a h)
    · rintro (h | h)
      · exact Or.inl (Or.inl h)
      · rcases List.mem_cons.mp h with h | h
        · exact Or.inl (Or.inr h)
        · exact Or.inr h

theorem nodup_keysOf_rrfAccum (w : ℚ) (ids : List String) (r : Nat)
    (s : List (String × ℚ)) (h : (keysOf s).Nodup) :
    (keysOf (rrfAccum w ids r s)).Nodup := by
  induction ids generalizing r s with
  | nil => simpa [rrfAccum]
  | cons a rest ih =>
    simp only [rrfAccum]
    exact ih (r + 1) _ (nodup_keysOf_addScore s a _ h)

theorem nodup_keysOf_rrfScores (vres bres : List String) :
    (keysOf (rrfScores vres bres)).Nodup := by
  unfold rrfScores
  exact nodup_keysOf_rrfAccum _ _ _ _ (nodup_keysOf_rrfAccum _ _ _ _ (by simp [keysOf]))

theorem mem_keysOf_rrfScores (vres bres : List String) (j : String) :
    j ∈ keysOf (rrfScores vres bres) ↔ j ∈ vres ∨ j ∈ bres := by
  unfold rrfScores
  rw [mem_keysOf_rrfAccum, mem_keysOf_rrfAccum]
  simp only [keysOf, List.map_nil, List.not_mem_nil, false_or]

theorem getScore_eq_of_mem (s : List (String × ℚ)) (hnd : (keysOf s).Nodup)
    (j : String) (x : ℚ) (hm : (j, x) ∈ s) : getScore s j = x := by
  induction s with
  | nil => simp at hm
  | cons p rest ih =>
    obtain ⟨k, y⟩ := p
    simp only [keysOf, List.map_cons, List.nodup_cons] at hnd
    obtain ⟨hk_nmem, hnd_rest⟩ := hnd
    rcases List.mem_cons.mp hm with h | h
    · injection h with h1 h2
      subst h1
      simp [getScore, h2]
    · have hk : ¬ k = j := by
        intro hkj
        subst hkj
        exact hk_nmem (List.mem_map.mpr ⟨(k, x), h, rfl⟩)
      rw [getScore, if_neg hk]
      exact ih (by simpa [keysOf] using hnd_rest) h

/-- C1: for per-list-distinct id lists, the RRF fused score of an id in
both lists is `VECTOR_WEIGHT/(RRF_K + rank_v) + BM25_WEIGHT/(RRF_K + rank_b)`
(1-based ranks), an id in only one list gets exactly that single term, and
the output of `_reciprocal_rank_fusion` is the ids sorted in descending
order of fused score, truncated to the top `top_k` (every excluded id
scores no higher than any included id). -/
theorem rrf_fusion_correct (vres bres : List String) (top_k : Nat)
    (hv : vres.Nodup) (hb : bres.Nodup) :
    (∀ id ∈ vres, id ∈ bres →
        getScore (rrfScores vres bres) id
          = VECTOR_WEIGHT / (RRF_K + ((vres.indexOf id : ℚ) + 1))
            + BM25_WEIGHT / (RRF_K + ((bres.indexOf id : ℚ) + 1)))
    ∧ (∀ id ∈ vres, id ∉ bres →
        getScore (rrfScores vres bres) id
          = VECTOR_WEIGHT / (RRF_K + ((vres.indexOf id : ℚ) + 1)))
    ∧ (∀ id ∈ bres, id ∉ vres →
        getScore (rrfScores vres bres) id
          = BM25_WEIGHT / (RRF_K + ((bres.indexOf id : ℚ) + 1)))
    ∧ (fusedIds vres bres top_k).Pairwise
        (fun i j => getScore (rrfScores vres bres) j ≤ getScore (rrfScores vres bres) i)
    ∧ (fusedIds vres bres top_k).length = min top_k (rrfScores vres bres).length
    ∧ (∀ i ∈ fusedIds vres bres top_k, ∀ j, (j ∈ vres ∨ j ∈ bres) →
        j ∉ fusedIds vres bres top_k →
        getScore (rrfScores vres bres) j ≤ getScore (rrfScores vres bres) i) := by
  have hgetv : ∀ id ∈ vres, getScore (rrfAccum VECTOR_WEIGHT vres 1 []) id
      = VECTOR_WEIGHT / (RRF_K + ((vres.indexOf id : ℚ) + 1)) := by
    intro id hid
    rw [getScore_rrfAccum_mem VECTOR_WEIGHT vres 1 [] id hv hid]
    simp only [getScore]
    push_cast
    ring_nf
  have hboth : ∀ id ∈ vres, id ∈ bres →
      getScore (rrfScores vres bres) id
        = VECTOR_WEIGHT / (RRF_K + ((vres.indexOf id : ℚ) + 1))
          + BM25_WEIGHT / (RRF_K + ((bres.indexOf id : ℚ) + 1)) := by
    intro id hidv hidb
    unfold rrfScores
    rw [getScore_rrfAccum_mem BM25_WEIGHT bres 1 _ id hb hidb, hgetv id hidv]
    push_cast
    ring_nf
  have honlyv : ∀ id ∈ vres, id ∉ bres →
      getScore (rrfScores vres bres) id
        = VECTOR_WEIGHT / (RRF_K + ((vres.indexOf id : ℚ) + 1)) := by
    intro id hidv hidb
    unfold rrfScores
    rw [getScore_rrfAccum_not_mem BM25_WEIGHT bres 1 _ id hidb, hgetv id hidv]
  have honlyb : ∀ id ∈ bres, id ∉ vres →
      getScore (rrfScores vres bres) id
        = BM25_WEIGHT / (RRF_K + ((bres.indexOf id : ℚ) + 1)) := by
    intro id hidb hidv
    unfold rrfScores
    rw [getScore_rrfAccum_mem BM25_WEIGHT bres 1 _ id hb hidb,
        getScore_rrfAccum_not_mem VECTOR_WEIGHT vres 1 [] id hidv]
    simp only [getScore]
    push_cast
    ring_nf
  have htot : ∀ a b : String × ℚ, (decide (b.2 ≤ a.2)) = false → (decide (a.2 ≤ b.2)) = true := by
    intro a b h
    simp only [decide_eq_false_iff_not, not_le] at h
    simpa using le_of_lt h
  have htrans : ∀ a b c : String × ℚ,
      (decide (b.2 ≤ a.2)) = true → (decide (c.2 ≤ b.2)) = true → (decide (c.2 ≤ a.2)) = true := by
    intro a b c h1 h2
    simp only [decide_eq_true_eq] at h1 h2 ⊢
    exact le_trans h2 h1
  set leB := fun a b : String × ℚ => decide (b.2 ≤ a.2) with hleB
  have hsorted := sortStable_pairwise leB htot htrans (rrfScores vres bres)
  have hperm := sortStable_perm leB (rrfScores vres bres)
  have hnd := nodup_keysOf_rrfScores vres bres
  have hscore_entry : ∀ p : String × ℚ, p ∈ sortStable leB (rrfScores vres bres) →
      getScore (rrfScores vres bres) p.1 = p.2 := by
    intro p hp
    exact getScore_eq_of_mem _ hnd p.1 p.2 (hperm.mem_iff.mp (by simpa using hp))
  have hpw : (fusedIds vres bres top_k).Pairwise
      (fun i j => getScore (rrfScores vres bres) j ≤ getScore (rrfScores vres bres) i) := by
    unfold fusedIds
    rw [List.pairwise_map]
    have htake : ((sortStable leB (rrfScores vres bres)).take top_k).Pairwise
        (fun a b => leB a b = true) :=
      hsorted.sublist (List.take_sublist top_k _)
    refine htake.imp_of_mem ?_
    intro a b ha hb hab
    have ha2 := hscore_entry a ((List.take_sublist top_k _).mem ha)
    have hb2 := hscore_entry b ((List.take_sublist top_k _).mem hb)
    rw [ha2, hb2]
    simpa [hleB] using hab
  refine ⟨hboth, honlyv, honlyb, hpw, ?_, ?_⟩
  · unfold fusedIds
    rw [List.length_map, List.length_take, hperm.length_eq]
  · intro i hi j hjmem hjnot
    obtain ⟨p, hp_take, hp_fst⟩ := List.mem_map.mp hi
    have hjkeys : j ∈ keysOf (rrfScores vres bres) :=
      (mem_keysOf_rrfScores vres bres j).mpr hjmem
    obtain ⟨x, hq_mem⟩ : ∃ x, (j, x) ∈ rrfScores vres bres := by
      simpa [keysOf] using hjkeys
    set q : String × ℚ := (j, x) with hq_def
    have hq_fst : q.1 = j := rfl
    have hq_sorted : q ∈ sortStable leB (rrfScores vres bres) := hperm.mem_iff.mpr hq_mem
    rw [← List.take_append_drop top_k (sortStable leB (rrfScores vres bres))] at hq_sorted
    rcases List.mem_append.mp hq_sorted with hq | hq
    · exact absurd (List.mem_map.mpr ⟨q, hq, hq_fst⟩) hjnot
    · have hsorted2 := hsorted
      rw [← List.take_append_drop top_k (sortStable leB (rrfScores vres bres))] at hsorted2
      have h3 := (List.pairwise_append.mp hsorted2).2.2
      have hle := h3 p hp_take q hq
      have hp2 := hscore_entry p ((List.take_sublist top_k _).mem hp_take)
      have hq2 : getScore (rrfScores vres bres) q.1 = q.2 :=
        getScore_eq_of_mem _ hnd q.1 q.2 hq_mem
      rw [← hp_fst, ← hq_fst, hp2, hq2]
    
      simpa [hleB] using hle

/-- Witness for `rrf_fusion_correct` at concrete inputs. -/
theorem rrf_fusion_correct_witness :
    (["a", "b"] : List String).Nodup ∧ (["b", "c"] : List String).Nodup ∧
    ((∀ id ∈ (["a", "b"] : List String), id ∈ (["b", "c"] : List String) →
        getScore (rrfScores ["a", "b"] ["b", "c"]) id
          = VECTOR_WEIGHT / (RRF_K + (((["a", "b"] : List String).indexOf id : ℚ) + 1))
            + BM25_WEIGHT / (RRF_K + (((["b", "c"] : List String).indexOf id : ℚ) + 1)))
      ∧ (∀ id ∈ (["a", "b"] : List String), id ∉ (["b", "c"] : List String) →
          getScore (rrfScores ["a", "b"] ["b", "c"]) id
            = VECTOR_WEIGHT / (RRF_K + (((["a", "b"] : List String).indexOf id : ℚ) + 1)))
      ∧ (∀ id ∈ (["b", "c"] : List String), id ∉ (["a", "b"] : List String) →
          getScore (rrfScores ["a", "b"] ["b", "c"]) id
            = BM25_WEIGHT / (RRF_K + (((["b", "c"] : List String).indexOf id : ℚ) + 1)))
      ∧ (fusedIds ["a", "b"] ["b", "c"] 2).Pairwise
          (fun i j => getScore (rrfScores ["a", "b"] ["b", "c"]) j
            ≤ getScore (rrfScores ["a", "b"] ["b", "c"]) i)
      ∧ (fusedIds ["a", "b"] ["b", "c"] 2).length = min 2 (rrfScores ["a", "b"] ["b", "c"]).length
      ∧ (∀ i ∈ fusedIds ["a", "b"] ["b", "c"] 2, ∀ j,
          (j ∈ (["a", "b"] : List String) ∨ j ∈ (["b", "c"] : List String)) →
          j ∉ fusedIds ["a", "b"] ["b", "c"] 2 →
          getScore (rrfScores ["a", "b"] ["b", "c"]) j
            ≤ getScore (rrfScores ["a", "b"] ["b", "c"]) i)) :=
  ⟨by decide, by decide, rrf_fusion_correct ["a", "b"] ["b", "c"] 2 (by decide) (by decide)⟩

/- ── Chunk Builder (src/rag/chunker.py, chunk_curriculum_table) ──

A parsed table row is `(year, category, content)`; file reading and
markdown parsing (`parse_md_table`) are upstream of the embedded logic,
whose input is the parsed row list.  The two pandas statements
`df[col_year] = df[col_year].replace("", NA).ffill().fillna("")` and
`df[col_cat] = df.groupby(col_year)[col_cat].ffill().fillna("")` are both
left-to-right scans (the second grouped by the already-filled year
value), embedded as one left-to-right pass `ffillAux` carrying the last
non-empty year and, per filled-year value, the last non-empty category. -/

abbrev Row : Type := String × String × String

def yearsOf (rows : List Row) : List String := rows.map (fun r => r.1)

def catsOf (rows : List Row) : List String := rows.map (fun r => r.2.1)

/-- Forward fill of the year column: an empty cell inherits the running
last non-empty value (`prev`, initially the empty string). -/
def ffillYearCol (prev : String) : List String → List String
  | [] => []
  | y :: rest =>
    (if y = "" then prev else y) :: ffillYearCol (if y = "" then prev else y) rest

/-- Grouped forward fill of the category column over `(filledYear, cat)`
pairs: an empty category inherits the last non-empty category recorded
for the same filled-year value (`cmap`). -/
def ffillCatCol (cmap : List (String × String)) : List (String × String) → List String
  | [] => []
  | (y, c) :: rest =>
    (if c = "" then (List.lookup y cmap).getD "" else c)
      :: ffillCatCol (if c = "" then cmap else (y, c) :: cmap) rest

/-- The fused single pass over rows: year ffill plus grouped category
ffill (equivalent to running `ffillYearCol` then `ffillCatCol`). -/
def ffillAux (prev : String) (cmap : List (String × String)) : List Row → List Row
  | [] => []
  | (y, c, t) :: rest =>
    let y2 := if y = "" then prev else y
    let c2 := if c = "" then (List.lookup y2 cmap).getD "" else c
    let cmap2 := if c = "" then cmap else (y2, c) :: cmap
    (y2, c2, t) :: ffillAux y2 cmap2 rest

/-- Lines 112-114 of `chunk_curriculum_table`: the forward-filled table. -/
def ffillRows (rows : List Row) : List Row := ffillAux "" [] rows

/-- `normalize_category`: drop all spaces, then strip. -/
def normalize_category (raw : String) : String :=
  strTrim (String.mk (raw.data.filter (fun ch => ch ≠ ' ')))

/-- `df.groupby(..., sort=False)` key extraction: groups appear in order
of first appearance of their key, each group collecting all rows with
that key in document order. -/
def groupAddBy (key : Row → κ) [DecidableEq κ] :
    List (κ × List Row) → Row → List (κ × List Row)
  | [], r => [(key r, [r])]
  | (k, g) :: rest, r =>
    if k = key r then (k, g ++ [r]) :: rest else (k, g) :: groupAddBy key rest r

def groupRowsBy (key : Row → κ) [DecidableEq κ] (rows : List Row) : List (κ × List Row) :=
  rows.foldl (groupAddBy key) []

def groupByYearCat (rows : List Row) : List ((String × String) × List Row) :=
  groupRowsBy (fun r => (r.1, r.2.1)) rows

def groupByYear (rows : List Row) : List (String × List Row) :=
  groupRowsBy (fun r => r.1) rows

/-- Section-tag spacing: a line that strips to `<...>` gets a blank line
before it (except as first part) and after it (except as last line).
The boolean argument is `content_parts` being non-empty so far. -/
def sectionParts : List String → Bool → List String
  | [], _ => []
  | line :: rest, nonempty =>
    (if (strStartsWith (strTrim line) "<" && strEndsWith (strTrim line) ">") && nonempty then [""] else [])
      ++ [line]
      ++ (if (strStartsWith (strTrim line) "<" && strEndsWith (strTrim line) ">") && !rest.isEmpty then [""] else [])
      ++ sectionParts rest true

/-- The chunk record of `chunk_curriculum_table`; the constant
`source_file` metadata field (a relative path computed from the file
system) is omitted from the embedding. -/
structure CChunk where
  id : String
  text : String
  doc_type : String := "연차별_교과과정"
  specialty : String := ""
  specialty_id : Nat := 0
  year : String := ""
  category : String := ""
  chunk_level : String := ""
deriving DecidableEq

/-- The `(연차, 구분)` chunk loop of `chunk_curriculum_table` (before
reference resolution). -/
def yearCatChunks (spec : String) (spec_id : Nat) (filled : List Row) : List CChunk :=
  (groupByYearCat filled).filterMap (fun g =>
    let year := g.1.1
    let cat := normalize_category g.1.2
    let lines := (g.2.map (fun r => r.2.2)).filter (fun line => strTrim line ≠ "")
    let content := String.intercalate "\n" (sectionParts lines false)
    if strTrim content = "" then none
    else
      let header :=
        if year = "총계" ∨ year = "비고" then
          if cat ≠ "" then "[" ++ spec ++ "] " ++ year ++ " - " ++ cat ++ ":"
          else "[" ++ spec ++ "] " ++ year ++ ":"
        else "[" ++ spec ++ "] " ++ year ++ "년차 - " ++ cat ++ ":"
      some { id := spec ++ "_" ++ year ++ "_" ++ cat,
             text := header ++ "\n" ++ content,
             specialty := spec, specialty_id := spec_id,
             year := year, category := cat, chunk_level := "year_category" })

/-- Python `text.split("\n", 1)`: `(parts[0], parts[-1])`; when there is
no newline both components are the whole string. -/
def splitNl : List Char → Option (List Char × List Char)
  | [] => none
  | ch :: rest =>
    if ch = '\n' then some ([], rest)
    else match splitNl rest with
      | some (a, b) => some (ch :: a, b)
      | none => none

def splitFirstLine (s : String) : String × String :=
  match splitNl s.data with
  | some (a, b) => (String.mk a, String.mk b)
  | none => (s, s)

/-- Tail of the pattern `(\d)년차와\s*(?:동일|공통)` after the digit. -/
def yearRefTail (cs : List Char) : Bool :=
  ("년차와".data.isPrefixOf cs) &&
    (let cs2 := (cs.drop 3).dropWhile (fun ch => ch.isWhitespace)
     ("동일".data.isPrefixOf cs2) || ("공통".data.isPrefixOf cs2))

/-- `re.search(r"(\d)년차와\s*(?:동일|공통)", body)`: leftmost match,
returning the captured digit. -/
def findRefYearAux : List Char → Option Char
  | [] => none
  | ch :: rest => if ch.isDigit && yearRefTail rest then some ch else findRefYearAux rest

def findRefYear (s : String) : Option Char := findRefYearAux s.data

/-- `re.search(r"총계.*참조", body)`: some occurrence of `총계` followed,
on the same line, by `참조`. -/
def totalRefMatch : List Char → Bool
  | [] => false
  | ch :: rest =>
    (("총계".data.isPrefixOf (ch :: rest)) &&
      containsSub "참조".data (((ch :: rest).drop 2).takeWhile (fun c2 => c2 ≠ '\n')))
    || totalRefMatch rest

def matchesTotalRef (s : String) : Bool := totalRefMatch s.data

/-- `chunk_map[ref_id]` with dict comprehension last-wins semantics over
the current chunk list: the text of the last chunk carrying `ref_id`. -/
def resolveTargetText (cur : List CChunk) (ref_id : String) : Option String :=
  ((cur.filter (fun c => c.id == ref_id)).getLast?).map (fun c => c.text)

/-- One iteration of the reference-resolution loop, acting on the chunk
at position `i` of the evolving list (`chunk["text"]` is mutated in
place, which the fold models by `List.set`). -/
def resolveAt (spec : String) (cur : List CChunk) (i : Nat) : List CChunk :=
  match cur[i]? with
  | none => cur
  | some c =>
    let body := strTrim (splitFirstLine c.text).2
    if body.length > 30 then cur
    else
      let header := (splitFirstLine c.text).1
      match findRefYear body with
      | some d =>
        let ref_id := spec ++ "_" ++ String.mk [d] ++ "_" ++ c.category
        match resolveTargetText cur ref_id with
        | some rt => cur.set i { c with text := header ++ "\n" ++ (splitFirstLine rt).2 }
        | none => cur
      | none =>
        if matchesTotalRef body then
          let ref_id := spec ++ "_총계_" ++ c.category
          match resolveTargetText cur ref_id with
          | some rt => cur.set i { c with text := header ++ "\n" ++ (splitFirstLine rt).2 }
          | none => cur
        else cur

theorem length_resolveAt (spec : String) (cur : List CChunk) (i : Nat) :
    (resolveAt spec cur i).length = cur.length := by
  unfold resolveAt
  cases h : cur[i]? with
  | none => rfl
  | some c =>
    simp only []
    by_cases h30 : (strTrim (splitFirstLine c.text).2).length > 30
    · simp [h30]
    · simp only [h30, if_false]
      cases hfd : findRefYear (strTrim (splitFirstLine c.text).2) with
      | some d =>
        cases h2 : resolveTargetText cur (spec ++ "_" ++ String.mk [d] ++ "_" ++ c.category) with
        | some rt => simp [hfd, h2, List.length_set]
        | none => simp [hfd, h2]
      | none =>
        by_cases htm : matchesTotalRef (strTrim (splitFirstLine c.text).2)
        · cases h2 : resolveTargetText cur (spec ++ "_총계_" ++ c.category) with
          | some rt => simp [hfd, htm, h2, List.length_set]
          | none => simp [hfd, htm, h2]
        · simp [hfd, htm]

/-- The reference-resolution loop `for chunk in chunks`: one call of
`resolveAt` per original position, on the evolving list (`fuel` counts
the remaining loop iterations; `resolveAt` is the identity out of
bounds, and `resolveAt` preserves length, so `fuel = chunks.length`
processes exactly the positions `0 .. chunks.length - 1`). -/
def resolveGoF (spec : String) : Nat → List CChunk → Nat → List CChunk
  | 0, cur, _ => cur
  | fuel + 1, cur, i => resolveGoF spec fuel (resolveAt spec cur i) (i + 1)

/-- The whole reference-resolution pass of `chunk_curriculum_table`. -/
def resolvePass (spec : String) (chunks : List CChunk) : List CChunk :=
  resolveGoF spec chunks.length chunks 0

/-- The year-summary chunk loop (`연차별 요약 청크`). -/
def yearSummaryChunks (spec : String) (spec_id : Nat) (filled : List Row) : List CChunk :=
  (groupByYear filled).filterMap (fun g =>
    let year := g.1
    if year = "비고" then none
    else
      let lines := g.2.filterMap (fun r =>
        let cat := normalize_category r.2.1
        let content := strTrim r.2.2
        if content ≠ "" then
          some (if cat ≠ "" then "[" ++ cat ++ "] " ++ content else content)
        else none)
      if lines.isEmpty then none
      else
        let header :=
          if year ≠ "총계" then "[" ++ spec ++ "] " ++ year ++ "년차 전체:"
          else "[" ++ spec ++ "] " ++ year ++ " 전체:"
        some { id := spec ++ "_" ++ year ++ "_전체",
               text := header ++ "\n" ++ String.intercalate "\n" lines,
               specialty := spec, specialty_id := spec_id,
               year := year, category := "전체", chunk_level := "year" })

/-- `chunk_curriculum_table` over the parsed row list: forward fill,
year-category chunks, in-place reference resolution, then year-summary
chunks. -/
def chunkCurriculumTable (spec : String) (spec_id : Nat) (rows : List Row) : List CChunk :=
  if rows.isEmpty then []
  else
    let filled := ffillRows rows
    resolvePass spec (yearCatChunks spec spec_id filled)
      ++ yearSummaryChunks spec spec_id filled

/- ── C2: forward-fill characterization ── -/

def optOr : Option α → Option α → Option α
  | some x, _ => some x
  | none, b => b

theorem optOr_assoc (a b c : Option α) : optOr (optOr a b) c = optOr a (optOr b c) := by
  cases a <;> simp [optOr]

theorem optOr_none_right (a : Option α) : optOr a none = a := by
  cases a <;> simp [optOr]

/-- Last non-empty entry of a string list. -/
def lastNE (l : List String) : Option String := (l.filter (fun s => s != "")).getLast?

/-- The effective (forward-filled) year of row `i`, seeded with `prev`. -/
def effYearAt (prev : String) (ys : List String) (i : Nat) : String :=
  (lastNE (ys.take (i + 1))).getD prev

/-- Spec-side reading of the claim: the nearest preceding non-empty year
value in document order (empty if none). -/
def nearestPrevYear (rows : List Row) (i : Nat) : String :=
  (lastNE ((yearsOf rows).take i)).getD ""

/-- `(effective year, original category)` pairs of the table. -/
def groupPairsFF (prev : String) (rows : List Row) : List (String × String) :=
  (ffillYearCol prev (yearsOf rows)).zip (catsOf rows)

/-- Last original non-empty category among pairs belonging to year group `y`. -/
def lastCatIn (pairs : List (String × String)) (y : String) : Option String :=
  ((pairs.filter (fun p => p.1 == y && p.2 != "")).map (fun p => p.2)).getLast?

/-- Spec-side reading of the claim: the nearest preceding non-empty
category within the same (effective) year group, empty if none. -/
def nearestPrevCatInGroup (rows : List Row) (i : Nat) : String :=
  (lastCatIn ((groupPairsFF "" rows).take i) (effYearAt "" (yearsOf rows) i)).getD ""

theorem getLast?_cons_or (a : α) (l : List α) :
    (a :: l).getLast? = optOr l.getLast? (some a) := by
  induction l generalizing a with
  | nil => simp [optOr]
  | cons b t ih =>
    rw [List.getLast?_cons_cons]
    have hne : (b :: t).getLast?.isSome := by
      rw [List.getLast?_isSome]
      simp
    obtain ⟨x, hx⟩ := Option.isSome_iff_exists.mp hne
    rw [hx]
    simp [optOr]

theorem effYearAt_zero (prev y : String) (ys : List String) :
    effYearAt prev (y :: ys) 0 = if y = "" then prev else y := by
  unfold effYearAt lastNE
  rw [show (y :: ys).take 1 = [y] from rfl]
  by_cases hy : y = ""
  · subst hy
    simp
  · have h1 : (y != "") = true := bne_iff_ne.mpr hy
    simp [h1, hy]

theorem effYearAt_succ (prev y : String) (ys : List String) (i : Nat) :
    effYearAt prev (y :: ys) (i + 1) = effYearAt (if y = "" then prev else y) ys i := by
  unfold effYearAt lastNE
  rw [List.take_succ_cons, List.filter_cons]
  by_cases hy : y = ""
  · subst hy
    simp
  · have h1 : (y != "") = true := bne_iff_ne.mpr hy
    rw [if_neg hy]
    simp only [h1, if_true]
    rw [getLast?_cons_or]
    cases hgl : ((ys.take (i + 1)).filter (fun s => s != "")).getLast? with
    | some x => simp [optOr, hgl]
    | none => simp [optOr, hgl]

theorem groupPairsFF_cons (prev y0 c0 t0 : String) (rest : List Row) :
    groupPairsFF prev (((y0, c0, t0) : Row) :: rest)
      = ((if y0 = "" then prev else y0), c0)
        :: groupPairsFF (if y0 = "" then prev else y0) rest := by
  simp [groupPairsFF, yearsOf, catsOf, ffillYearCol]

theorem lastCatIn_cons (y0 c0 Y : String) (tail : List (String × String)) :
    lastCatIn ((y0, c0) :: tail) Y
      = optOr (lastCatIn tail Y) (if y0 = Y ∧ c0 ≠ "" then some c0 else none) := by
  unfold lastCatIn
  rw [List.filter_cons]
  by_cases h : y0 = Y ∧ c0 ≠ ""
  · have hcond : ((y0, c0).1 == Y && (y0, c0).2 != "") = true := by
      rw [Bool.and_eq_true]
      exact ⟨beq_iff_eq.mpr h.1, bne_iff_ne.mpr h.2⟩
    simp only [hcond, if_true, if_pos h, List.map_cons]
    exact getLast?_cons_or c0 _
  · have hcond : ((y0, c0).1 == Y && (y0, c0).2 != "") = false := by
      by_cases h1 : y0 = Y
      · have h2 : c0 = "" := by
          by_contra h2
          exact h (And.intro h1 h2)
        subst h2
        simp
      · have hb : (y0 == Y) = false := beq_false_of_ne h1
        simp [hb]
    simp only [hcond, Bool.false_eq_true, if_false, if_neg h, optOr_none_right]

theorem optOr_head_lookup (y2 c0 Y : String) (cmap : List (String × String)) :
    optOr (if y2 = Y ∧ c0 ≠ "" then some c0 else none) (List.lookup Y cmap)
      = List.lookup Y (if c0 = "" then cmap else (y2, c0) :: cmap) := by
  by_cases hc0 : c0 = ""
  · subst hc0
    simp [optOr]
  · simp only [hc0, if_false]
    by_cases hyy : y2 = Y
    · have hpos : y2 = Y ∧ c0 ≠ "" := ⟨hyy, hc0⟩
      rw [if_pos hpos]
      subst hyy
      have hbeq : (y2 == y2) = true := beq_self_eq_true y2
      simp [List.lookup, hbeq, optOr]
    · rw [if_neg (fun hand => hyy hand.1)]
      have hbeq : (Y == y2) = false := beq_false_of_ne (fun hh => hyy hh.symm)
      simp [List.lookup, hbeq, optOr]

theorem ffillAux_get (rows : List Row) :
    ∀ (prev : String) (cmap : List (String × String)) (i : Nat) (y c t : String),
    rows[i]? = some ((y, c, t) : Row) →
    (ffillAux prev cmap rows)[i]? = some ((effYearAt prev (yearsOf rows) i,
      (if c = "" then
        (optOr (lastCatIn ((groupPairsFF prev rows).take i) (effYearAt prev (yearsOf rows) i))
          (List.lookup (effYearAt prev (yearsOf rows) i) cmap)).getD ""
       else c),
      t) : Row) := by
  induction rows with
  | nil =>
    intro prev cmap i y c t h
    simp at h
  | cons r rest ih =>
    obtain ⟨y0, c0, t0⟩ := r
    intro prev cmap i y c t h
    cases i with
    | zero =>
      have h0 : ((y0, c0, t0) : Row) = (y, c, t) := by
        have h2 := h
        rw [List.getElem?_cons_zero] at h2
        exact Option.some.inj h2
      injection h0 with h1 h23
      injection h23 with h2 h3
      subst h1; subst h2; subst h3
      rw [show yearsOf (((y0, c0, t0) : Row) :: rest) = y0 :: yearsOf rest from rfl,
          effYearAt_zero]
      simp only [List.take_zero]
      have hunf : ffillAux prev cmap (((y0, c0, t0) : Row) :: rest)
          = ((if y0 = "" then prev else y0,
              if c0 = "" then (List.lookup (if y0 = "" then prev else y0) cmap).getD "" else c0,
              t0) : Row)
            :: ffillAux (if y0 = "" then prev else y0)
                (if c0 = "" then cmap else ((if y0 = "" then prev else y0), c0) :: cmap) rest := rfl
      rw [hunf, List.getElem?_cons_zero]
      have hlast : lastCatIn [] (if y0 = "" then prev else y0) = none := rfl
      rw [hlast]
      simp [optOr]
    | succ n =>
      have hrest : rest[n]? = some ((y, c, t) : Row) := by
        simpa using h
      have hunf : ffillAux prev cmap (((y0, c0, t0) : Row) :: rest)
          = ((if y0 = "" then prev else y0,
              if c0 = "" then (List.lookup (if y0 = "" then prev else y0) cmap).getD "" else c0,
              t0) : Row)
            :: ffillAux (if y0 = "" then prev else y0)
                (if c0 = "" then cmap else ((if y0 = "" then prev else y0), c0) :: cmap) rest := rfl
      rw [hunf, List.getElem?_cons_succ, ih _ _ n y c t hrest,
          show yearsOf (((y0, c0, t0) : Row) :: rest) = y0 :: yearsOf rest from rfl,
          effYearAt_succ, groupPairsFF_cons, List.take_succ_cons, lastCatIn_cons,
          optOr_assoc, optOr_head_lookup]

theorem effYearAt_of_empty (rows : List Row) (i : Nat) (y c t : String)
    (hrow : rows[i]? = some ((y, c, t) : Row)) (hy : y = "") :
    effYearAt "" (yearsOf rows) i = nearestPrevYear rows i := by
  unfold effYearAt nearestPrevYear
  congr 1
  have hyi : (yearsOf rows)[i]? = some "" := by
    subst hy
    simp [yearsOf, List.getElem?_map, hrow]
  rw [List.take_succ, hyi]
  unfold lastNE
  rw [List.filter_append]
  simp

/-- C2: in `chunk_curriculum_table`, a parsed row with an empty year
cell receives as effective year the nearest preceding non-empty year in
document order, and a row with an empty category cell receives the
nearest preceding non-empty category within the same (effective) year
group only — category forward-fill never crosses a year-group boundary. -/
theorem curriculum_forward_fill (rows : List Row) (i : Nat) (y c t : String)
    (hrow : rows[i]? = some ((y, c, t) : Row)) :
    (y = "" → ((ffillRows rows)[i]?).map (fun r : Row => r.1) = some (nearestPrevYear rows i))
    ∧ (c = "" → ((ffillRows rows)[i]?).map (fun r : Row => r.2.1) = some (nearestPrevCatInGroup rows i)) := by
  have hmain := ffillAux_get rows "" [] i y c t hrow
  rw [show ffillRows rows = ffillAux "" [] rows from rfl, hmain]
  constructor
  · intro hy
    simp only [Option.map_some']
    exact congrArg some (effYearAt_of_empty rows i y c t hrow hy)
  · intro hc
    simp only [Option.map_some']
    rw [if_pos hc]
    unfold nearestPrevCatInGroup
    simp [optOr_none_right]

/-- Witness for `curriculum_forward_fill` on a concrete two-row table. -/
theorem curriculum_forward_fill_witness :
    (([("1", "A", "x"), ("", "", "y")] : List Row)[1]? = some (("", "", "y") : Row))
    ∧ ((("" : String) = "" →
        ((ffillRows [("1", "A", "x"), ("", "", "y")])[1]?).map (fun r : Row => r.1)
          = some (nearestPrevYear [("1", "A", "x"), ("", "", "y")] 1))
      ∧ (("" : String) = "" →
        ((ffillRows [("1", "A", "x"), ("", "", "y")])[1]?).map (fun r : Row => r.2.1)
          = some (nearestPrevCatInGroup [("1", "A", "x"), ("", "", "y")] 1))) :=
  ⟨by decide, curriculum_forward_fill [("1", "A", "x"), ("", "", "y")] 1 "" "" "y" (by decide)⟩

/- ── C3 / C8: reference resolution characterization ── -/

/-- A chunk on which one resolution step is the identity regardless of
the surrounding state: its body is over the length threshold, or it
matches neither reference pattern. -/
def chunkStepInert (c : CChunk) : Bool :=
  decide (30 < (strTrim (splitFirstLine c.text).2).length)
  || ((findRefYear (strTrim (splitFirstLine c.text).2)).isNone
      && !(matchesTotalRef (strTrim (splitFirstLine c.text).2)))

theorem resolveAt_of_inert (spec : String) (cur : List CChunk) (i : Nat) (c : CChunk)
    (h : cur[i]? = some c) (hin : chunkStepInert c = true) :
    resolveAt spec cur i = cur := by
  unfold resolveAt
  rw [h]
  unfold chunkStepInert at hin
  rw [Bool.or_eq_true, Bool.and_eq_true] at hin
  by_cases h30 : (strTrim (splitFirstLine c.text).2).length > 30
  · simp [h30]
  · rcases hin with hin | ⟨hnone, htot⟩
    · exact absurd (of_decide_eq_true hin) h30
    · have hfd : findRefYear (strTrim (splitFirstLine c.text).2) = none :=
        Option.isNone_iff_eq_none.mp hnone
      have htot2 : matchesTotalRef (strTrim (splitFirstLine c.text).2) = false := by
        simpa using htot
      simp [h30, hfd, htot2]

theorem resolveAt_shape (spec : String) (cur : List CChunk) (i : Nat) :
    resolveAt spec cur i = cur
    ∨ ∃ c t2, cur[i]? = some c ∧ resolveAt spec cur i = cur.set i { c with text := t2 } := by
  unfold resolveAt
  cases h : cur[i]? with
  | none => exact Or.inl rfl
  | some c =>
    by_cases h30 : (strTrim (splitFirstLine c.text).2).length > 30
    · left
      simp [h30]
    · simp only [h30, if_false]
      cases hfd : findRefYear (strTrim (splitFirstLine c.text).2) with
      | some d =>
        cases h2 : resolveTargetText cur (spec ++ "_" ++ String.mk [d] ++ "_" ++ c.category) with
        | some rt =>
          right
          refine ⟨c, (splitFirstLine c.text).1 ++ "\n" ++ (splitFirstLine rt).2, rfl, ?_⟩
          simp [hfd, h2]
        | none =>
          left
          simp [hfd, h2]
      | none =>
        by_cases htm : matchesTotalRef (strTrim (splitFirstLine c.text).2)
        · cases h2 : resolveTargetText cur (spec ++ "_총계_" ++ c.category) with
          | some rt =>
            right
            refine ⟨c, (splitFirstLine c.text).1 ++ "\n" ++ (splitFirstLine rt).2, rfl, ?_⟩
            simp [hfd, htm, h2]
          | none =>
            left
            simp [hfd, htm, h2]
        · left
          simp [hfd, htm]

theorem resolveAt_get_ne (spec : String) (cur : List CChunk) (i j : Nat) (hne : i ≠ j) :
    (resolveAt spec cur i)[j]? = cur[j]? := by
  rcases resolveAt_shape spec cur i with h | ⟨c, t2, hc, h⟩
  · rw [h]
  · rw [h, List.getElem?_set_ne hne]

theorem resolveAt_id_map (spec : String) (cur : List CChunk) (i j : Nat) :
    ((resolveAt spec cur i)[j]?).map (fun c => c.id) = (cur[j]?).map (fun c => c.id) := by
  rcases resolveAt_shape spec cur i with h | ⟨c, t2, hc, h⟩
  · rw [h]
  · by_cases hj : i = j
    · subst hj
      obtain ⟨hlt, _⟩ := List.getElem?_eq_some.mp hc
      rw [h, List.getElem?_set_self hlt, hc]
      rfl
    · rw [h, List.getElem?_set_ne hj]

theorem resolveGoF_get_lt (spec : String) (fuel : Nat) :
    ∀ (cur : List CChunk) (i j : Nat), j < i →
    (resolveGoF spec fuel cur i)[j]? = cur[j]? := by
  induction fuel with
  | zero =>
    intro cur i j hj
    rfl
  | succ fuel ih =>
    intro cur i j hj
    rw [resolveGoF, ih _ (i + 1) j (by omega)]
    exact resolveAt_get_ne spec cur i j (by omega)

theorem length_resolveGoF (spec : String) (fuel : Nat) :
    ∀ (cur : List CChunk) (i : Nat), (resolveGoF spec fuel cur i).length = cur.length := by
  induction fuel with
  | zero =>
    intro cur i
    rfl
  | succ fuel ih =>
    intro cur i
    rw [resolveGoF, ih, length_resolveAt]

theorem filter_eq_single (l : List CChunk) (p : CChunk → Bool) (r : Nat) (c : CChunk)
    (hr : l[r]? = some c) (hp : p c = true)
    (huniq : ∀ j c2, l[j]? = some c2 → p c2 = true → j = r) :
    l.filter p = [c] := by
  induction l generalizing r with
  | nil => simp at hr
  | cons a rest ih =>
    cases r with
    | zero =>
      have ha : a = c := by simpa using hr
      subst ha
      rw [List.filter_cons, if_pos hp]
      have hrest : rest.filter p = [] := by
        rw [List.filter_eq_nil_iff]
        intro x hx hpx
        obtain ⟨j, hj⟩ := List.getElem?_of_mem hx
        have := huniq (j + 1) x (by simpa using hj) (by simpa using hpx)
        omega
      rw [hrest]
    | succ n =>
      have hrest : rest[n]? = some c := by simpa using hr
      have hpa : p a = false := by
        cases hpa : p a
        · rfl
        · have := huniq 0 a (by simp) hpa
          omega
      rw [List.filter_cons, hpa]
      simp only [Bool.false_eq_true, if_false]
      exact ih n hrest (fun j c2 hj hp2 => by
        have := huniq (j + 1) c2 (by simpa using hj) hp2
        omega)

/-- The reference id that the resolution step would look up for a chunk:
`{spec}_{digit}_{category}` for a short `(\d)년차와 (동일|공통)` body,
`{spec}_총계_{category}` for a short `총계.*참조` body, none otherwise. -/
def refIdOf (spec : String) (c : CChunk) : Option String :=
  let body := strTrim (splitFirstLine c.text).2
  if body.length > 30 then none
  else
    match findRefYear body with
    | some d => some (spec ++ "_" ++ String.mk [d] ++ "_" ++ c.category)
    | none =>
      if matchesTotalRef body then some (spec ++ "_총계_" ++ c.category) else none

theorem resolveAt_resolves (spec : String) (cur : List CChunk) (i : Nat)
    (c : CChunk) (rid rt : String)
    (h : cur[i]? = some c) (hrid : refIdOf spec c = some rid)
    (htgt : resolveTargetText cur rid = some rt) :
    resolveAt spec cur i
      = cur.set i { c with text := (splitFirstLine c.text).1 ++ "\n" ++ (splitFirstLine rt).2 } := by
  unfold refIdOf at hrid
  unfold resolveAt
  rw [h]
  by_cases h30 : (strTrim (splitFirstLine c.text).2).length > 30
  · rw [if_pos h30] at hrid
    exact absurd hrid (by simp)
  · rw [if_neg h30] at hrid
    simp only [h30, if_false]
    cases hfd : findRefYear (strTrim (splitFirstLine c.text).2) with
    | some d =>
      rw [hfd] at hrid
      have hrid2 : spec ++ "_" ++ String.mk [d] ++ "_" ++ c.category = rid := by
        simpa using hrid
      have htgt2 : resolveTargetText cur (spec ++ "_" ++ String.mk [d] ++ "_" ++ c.category)
          = some rt := by
        rw [hrid2]
        exact htgt
      simp [hfd, htgt2]
    | none =>
      rw [hfd] at hrid
      by_cases htm : matchesTotalRef (strTrim (splitFirstLine c.text).2)
      · rw [if_pos htm] at hrid
        have hrid2 : spec ++ "_총계_" ++ c.category = rid := by
          simpa using hrid
        have htgt2 : resolveTargetText cur (spec ++ "_총계_" ++ c.category) = some rt := by
          rw [hrid2]
          exact htgt
        simp [hfd, htm, htgt2]
      · rw [if_neg htm] at hrid
        exact absurd hrid (by simp)

theorem resolveGoF_resolve (spec : String) (chunks : List CChunk) (m r : Nat)
    (c_m c_r : CChunk) (rid : String)
    (hids : (chunks.map (fun c => c.id)).Nodup)
    (hm : chunks[m]? = some c_m)
    (hrid : refIdOf spec c_m = some rid)
    (href : chunks[r]? = some c_r)
    (hcrid : c_r.id = rid)
    (hinert : chunkStepInert c_r = true) :
    ∀ (fuel : Nat) (s : List CChunk) (i : Nat),
      s.length = chunks.length → m < i + fuel → i ≤ m →
      (∀ j, i ≤ j → s[j]? = chunks[j]?) →
      (∀ j : Nat, Option.map (fun c : CChunk => c.id) s[j]?
        = Option.map (fun c : CChunk => c.id) chunks[j]?) →
      s[r]? = chunks[r]? →
      (resolveGoF spec fuel s i)[m]?
        = some { c_m with text := (splitFirstLine c_m.text).1 ++ "\n" ++ (splitFirstLine c_r.text).2 } := by
  intro fuel
  induction fuel with
  | zero =>
    intro s i _ hmi him _ _ _
    omega
  | succ fuel ih =>
    intro s i hslen hmi him hge hid hr
    rw [resolveGoF]
    by_cases heq : i = m
    · subst heq
      have hsm : s[i]? = some c_m := by
        rw [hge i le_rfl]
        exact hm
      have hfilter : s.filter (fun c => c.id == rid) = [c_r] := by
        apply filter_eq_single s _ r c_r
        · rw [hr]
          exact href
        · exact beq_iff_eq.mpr hcrid
        · intro j c2 hj hp2
          have hcid : Option.map (fun c : CChunk => c.id) chunks[j]? = some rid := by
            rw [← hid j, hj, Option.map_some']
            exact congrArg some (beq_iff_eq.mp hp2)
          have hj2 : (chunks.map (fun c => c.id))[j]? = some rid := by
            rw [List.getElem?_map, hcid]
          have hr2 : (chunks.map (fun c => c.id))[r]? = some rid := by
            rw [List.getElem?_map, href, Option.map_some', hcrid]
          have hjlt : j < (chunks.map (fun c => c.id)).length := (List.getElem?_eq_some.mp hj2).1
          exact List.getElem?_inj hjlt hids (hj2.trans hr2.symm)
      have htgt : resolveTargetText s rid = some c_r.text := by
        unfold resolveTargetText
        rw [hfilter]
        rfl
      rw [resolveAt_resolves spec s i c_m rid c_r.text hsm hrid htgt]
      rw [resolveGoF_get_lt spec fuel _ (i + 1) i (by omega)]
      have hilt : i < s.length := (List.getElem?_eq_some.mp hsm).1
      rw [List.getElem?_set_self hilt]
    · apply ih (resolveAt spec s i) (i + 1)
      · rw [length_resolveAt]
        exact hslen
      · omega
      · omega
      · intro j hj
        rw [resolveAt_get_ne spec s i j (by omega)]
        exact hge j (by omega)
      · intro j
        rw [show Option.map (fun c : CChunk => c.id) (resolveAt spec s i)[j]?
            = Option.map (fun c : CChunk => c.id) s[j]? from resolveAt_id_map spec s i j]
        exact hid j
      · by_cases hri : r = i
        · subst hri
          have hsr : s[r]? = some c_r := by
            rw [hr]
            exact href
          rw [resolveAt_of_inert spec s r c_r hsr hinert]
          exact hr
        · rw [resolveAt_get_ne spec s i r (fun hh => hri hh.symm)]
          exact hr

def scenarioABody : String :=
  "내과 1년차 전체 상세 내용이 여기 길게 들어가 있습니다 서른 글자 넘김"

def scenarioARows : List Row :=
  [("1", "교과내용", scenarioABody), ("2", "교과내용", "1년차와 동일")]

/-- C3: scenario A — building the two-row table whose second chunk body
is the reference phrase `1년차와 동일` ("same as year 1") stores, for
chunk `내과_2_교과내용`, its own header line followed by the body of
chunk `내과_1_교과내용`; and in general every chunk whose body is at most
the 30-character threshold and matches a year-reference or see-total
pattern, and whose referenced chunk exists (with per-list distinct ids
and a referenced chunk that is itself not a short reference), has its
body replaced by the referenced chunk's body, keeping its own header. -/
theorem reference_resolution_correct :
    (((chunkCurriculumTable "내과" 1 scenarioARows).filter
        (fun c => c.id == "내과_2_교과내용")).map (fun c => c.text)
      = ((chunkCurriculumTable "내과" 1 scenarioARows).filter
          (fun c => c.id == "내과_1_교과내용")).map
            (fun c => "[내과] 2년차 - 교과내용:" ++ "\n" ++ (splitFirstLine c.text).2))
    ∧ (∀ (spec : String) (chunks : List CChunk) (m r : Nat)
        (c_m c_r : CChunk) (rid : String),
        (chunks.map (fun c => c.id)).Nodup →
        chunks[m]? = some c_m →
        refIdOf spec c_m = some rid →
        chunks[r]? = some c_r →
        c_r.id = rid →
        chunkStepInert c_r = true →
        (resolvePass spec chunks)[m]?
          = some { c_m with
              text := (splitFirstLine c_m.text).1 ++ "\n" ++ (splitFirstLine c_r.text).2 }) := by
  constructor
  · decide
  · intro spec chunks m r c_m c_r rid hids hm hrid href hcrid hinert
    have hmlt : m < chunks.length := (List.getElem?_eq_some.mp hm).1
    exact resolveGoF_resolve spec chunks m r c_m c_r rid hids hm hrid href hcrid hinert
      chunks.length chunks 0 rfl (by omega) (by omega)
      (fun j _ => rfl) (fun j => rfl) rfl

def chunkA1 : CChunk :=
  { id := "내과_1_교과내용",
    text := "[내과] 1년차 - 교과내용:" ++ "\n" ++ scenarioABody,
    specialty := "내과", specialty_id := 1, year := "1", category := "교과내용",
    chunk_level := "year_category" }

def chunkA2 : CChunk :=
  { id := "내과_2_교과내용",
    text := "[내과] 2년차 - 교과내용:" ++ "\n" ++ "1년차와 동일",
    specialty := "내과", specialty_id := 1, year := "2", category := "교과내용",
    chunk_level := "year_category" }

/-- Witness for the general conjunct of `reference_resolution_correct`
at a concrete chunk pair. -/
theorem reference_resolution_correct_witness :
    (([chunkA1, chunkA2].map (fun c => c.id)).Nodup
      ∧ ([chunkA1, chunkA2] : List CChunk)[1]? = some chunkA2
      ∧ refIdOf "내과" chunkA2 = some "내과_1_교과내용"
      ∧ ([chunkA1, chunkA2] : List CChunk)[0]? = some chunkA1
      ∧ chunkA1.id = "내과_1_교과내용"
      ∧ chunkStepInert chunkA1 = true)
    ∧ (resolvePass "내과" [chunkA1, chunkA2])[1]?
        = some { chunkA2 with
            text := (splitFirstLine chunkA2.text).1 ++ "\n" ++ (splitFirstLine chunkA1.text).2 } :=
  ⟨⟨by decide, by decide, by decide, by decide, by decide, by decide⟩,
    reference_resolution_correct.2 "내과" [chunkA1, chunkA2] 1 0 chunkA2 chunkA1
      "내과_1_교과내용" (by decide) (by decide) (by decide) (by decide) (by decide) (by decide)⟩

/- ── C8: idempotence of the resolution pass ── -/

theorem resolveTargetText_eq_none (cur : List CChunk) (rid : String)
    (h : rid ∉ cur.map (fun c => c.id)) : resolveTargetText cur rid = none := by
  unfold resolveTargetText
  have hnil : cur.filter (fun c => c.id == rid) = [] := by
    rw [List.filter_eq_nil_iff]
    intro c hc hpc
    exact h (List.mem_map.mpr ⟨c, hc, beq_iff_eq.mp hpc⟩)
  rw [hnil]
  rfl

theorem resolveAt_eq_self (spec : String) (cur : List CChunk) (i : Nat)
    (h : ∀ c, cur[i]? = some c → ∀ rid, refIdOf spec c = some rid →
      resolveTargetText cur rid = none) :
    resolveAt spec cur i = cur := by
  unfold resolveAt
  cases hL : cur[i]? with
  | none => rfl
  | some c =>
    have hc := h c hL
    by_cases h30 : (strTrim (splitFirstLine c.text).2).length > 30
    · simp [h30]
    · simp only [h30, if_false]
      cases hfd : findRefYear (strTrim (splitFirstLine c.text).2) with
      | some d =>
        have hrid : refIdOf spec c = some (spec ++ "_" ++ String.mk [d] ++ "_" ++ c.category) := by
          unfold refIdOf
          rw [if_neg h30, hfd]
        have htgt := hc _ hrid
        simp [htgt]
      | none =>
        by_cases htm : matchesTotalRef (strTrim (splitFirstLine c.text).2)
        · have hrid : refIdOf spec c = some (spec ++ "_총계_" ++ c.category) := by
            unfold refIdOf
            rw [if_neg h30, hfd, if_pos htm]
          have htgt := hc _ hrid
          simp [htm, htgt]
        · simp [htm]

theorem resolveGoF_fix (spec : String) (L : List CChunk)
    (h : ∀ c ∈ L, ∀ rid, refIdOf spec c = some rid → rid ∉ L.map (fun c2 => c2.id)) :
    ∀ fuel i, resolveGoF spec fuel L i = L := by
  intro fuel
  induction fuel with
  | zero =>
    intro i
    rfl
  | succ fuel ih =>
    intro i
    rw [resolveGoF]
    have hstep : resolveAt spec L i = L := by
      apply resolveAt_eq_self
      intro c hc rid hrid
      apply resolveTargetText_eq_none
      exact h c (List.getElem?_mem hc) rid hrid
    rw [hstep, ih]

/-- The rows of the chained-reference counterexample: the year-2 row
refers to year 1, whose own body refers to the 총계 (total) row. -/
def chainRows : List Row :=
  [("2", "교과내용", "1년차와 동일"),
   ("1", "교과내용", "총계 참조"),
   ("총계", "교과내용", scenarioABody)]

def chainChunks : List CChunk := yearCatChunks "내과" 1 (ffillRows chainRows)

/-- C8 counterexample: on the chunk list built from `chainRows`, the
first pass resolves the year-2 chunk to the year-1 chunk's body at a
moment when that body is still the literal `총계 참조`, and resolves the
year-1 chunk afterwards; a second pass then resolves the year-2 chunk
one step further, so the texts differ. -/
theorem resolve_idempotence_counterexample :
    (resolvePass "내과" (resolvePass "내과" chainChunks)).map (fun c => c.text)
      ≠ (resolvePass "내과" chainChunks).map (fun c => c.text) := by
  decide

/-- C8 amended: the resolution pass is idempotent provided every chunk
of the first pass's output that still carries a short reference-pattern
body refers to an id absent from the chunk set (only unresolvable
references remain); chained resolvable references, as in
`resolve_idempotence_counterexample`, can resolve one step further on a
second pass. -/
theorem resolve_pass_idempotent (spec : String) (chunks : List CChunk)
    (h : ∀ c ∈ resolvePass spec chunks, ∀ rid, refIdOf spec c = some rid →
        rid ∉ (resolvePass spec chunks).map (fun c2 => c2.id)) :
    resolvePass spec (resolvePass spec chunks) = resolvePass spec chunks := by
  exact resolveGoF_fix spec (resolvePass spec chunks) h (resolvePass spec chunks).length 0

def unresolvableChunk : CChunk :=
  { id := "내과_2_교과내용",
    text := "[내과] 2년차 - 교과내용:" ++ "\n" ++ "9년차와 동일",
    specialty := "내과", specialty_id := 1, year := "2", category := "교과내용",
    chunk_level := "year_category" }

/-- Witness for `resolve_pass_idempotent` on a one-chunk list whose only
reference is unresolvable. -/
theorem resolve_pass_idempotent_witness :
    (∀ c ∈ resolvePass "내과" [unresolvableChunk], ∀ rid, refIdOf "내과" c = some rid →
        rid ∉ (resolvePass "내과" [unresolvableChunk]).map (fun c2 => c2.id))
    ∧ resolvePass "내과" (resolvePass "내과" [unresolvableChunk])
        = resolvePass "내과" [unresolvableChunk] := by
  have hres : resolvePass "내과" [unresolvableChunk] = [unresolvableChunk] := by decide
  have h : ∀ c ∈ resolvePass "내과" [unresolvableChunk], ∀ rid,
      refIdOf "내과" c = some rid →
      rid ∉ (resolvePass "내과" [unresolvableChunk]).map (fun c2 => c2.id) := by
    rw [hres]
    intro c hc rid hrid
    have hcu : c = unresolvableChunk := by
      simpa using hc
    subst hcu
    have hrid2 : rid = "내과_9_교과내용" := by
      have : refIdOf "내과" unresolvableChunk = some "내과_9_교과내용" := by decide
      rw [this] at hrid
      exact (Option.some.inj hrid).symm
    subst hrid2
    decide
  exact ⟨h, resolve_pass_idempotent "내과" [unresolvableChunk] h⟩

/- ── Lexical index (src/rag/bm25_index.py) ── -/

/-- Python word character of `re.findall(r"\w+", ...)`, restricted to
the scripts occurring in this corpus: ASCII alphanumerics, underscore
and the Hangul ranges (Jamo, compatibility Jamo, syllables). -/
def isWordChar (ch : Char) : Bool :=
  ch.isAlphanum || ch = '_'
    || (0x1100 ≤ ch.toNat && ch.toNat ≤ 0x11FF)
    || (0x3130 ≤ ch.toNat && ch.toNat ≤ 0x318F)
    || (0xAC00 ≤ ch.toNat && ch.toNat ≤ 0xD7A3)

/-- Maximal word-character runs of a char list (`cur` is the current
run, reversed). -/
def tokenizeRuns : List Char → List Char → List String
  | [], cur => if cur.isEmpty then [] else [String.mk cur.reverse]
  | ch :: rest, cur =>
    if isWordChar ch then tokenizeRuns rest (ch :: cur)
    else if cur.isEmpty then tokenizeRuns rest []
    else String.mk cur.reverse :: tokenizeRuns rest []

/-- `_tokenize`: `re.findall(r"\w+", text.lower())`. -/
def tokenize (s : String) : List String :=
  tokenizeRuns (s.data.map Char.toLower) []

/-- ChromaDB-style `where` filter: a dict of equality fields, or an
`$and` list of filters. -/
inductive WhereFilter where
  | fields (kvs : List (String × String))
  | andF (conds : List WhereFilter)

mutual

/-- `_match_filter`: `$and` is the conjunction of its members; a field
dict requires `metadata.get(key) == value` for every key that does not
start with `$`. -/
def matchFilter (md : List (String × String)) : WhereFilter → Bool
  | .fields kvs =>
    kvs.all (fun p => strStartsWith p.1 "$" || (List.lookup p.1 md == some p.2))
  | .andF conds => matchFilterList md conds

def matchFilterList (md : List (String × String)) : List WhereFilter → Bool
  | [] => true
  | f :: rest => matchFilter md f && matchFilterList md rest

end

/-- A retrieval result item; Python result dicts carry varying key sets
(`distance` for vector results, `bm25_score` for lexical results), which
the embedding models by zero-valued defaults for the absent keys. -/
structure RItem where
  id : String := ""
  text : String := ""
  metadata : List (String × String) := []
  distance : ℚ := 0
  bm25_score : ℚ := 0
deriving DecidableEq

/-- An indexed chunk as consumed by `BM25Index.build`. -/
structure IChunk where
  id : String
  text : String
  metadata : List (String × String)
deriving DecidableEq

/-- The persisted state of `BM25Index` after `build(chunks)`. -/
structure BM25Idx where
  doc_ids : List String
  doc_texts : List String
  doc_metadatas : List (List (String × String))
  tokenized_corpus : List (List String)
deriving DecidableEq

def bm25Build (chunks : List IChunk) : BM25Idx :=
  { doc_ids := chunks.map (fun c => c.id),
    doc_texts := chunks.map (fun c => c.text),
    doc_metadatas := chunks.map (fun c => c.metadata),
    tokenized_corpus := chunks.map (fun c => tokenize c.text) }

def bm25_k1 : ℚ := 3 / 2

def bm25_b : ℚ := 3 / 4

def bm25AvgDl (corpus : List (List String)) : ℚ :=
  ((corpus.map (fun d => (d.length : ℚ))).sum) / (corpus.length : ℚ)

/-- Modelled from the spec: the probabilistic ranking model is
`BM25Okapi` of the external `rank_bm25` package (not part of this
repository).  Its term-frequency/saturation part is the standard BM25
formula with `k1 = 1.5`, `b = 0.75`; the inverse-document-frequency
table, which uses a real logarithm, is an abstract parameter `idf`.
A term with zero frequency in a document contributes exactly zero to
that document's score, whatever `idf` is. -/
def bm25Score (idf : String → ℚ) (corpus : List (List String)) (doc : List String)
    (query : List String) : ℚ :=
  query.foldl (fun acc q =>
    acc + idf q * (((doc.count q : ℚ)) * (bm25_k1 + 1))
      / (((doc.count q : ℚ))
          + bm25_k1 * (1 - bm25_b + bm25_b * ((doc.length : ℚ)) / bm25AvgDl corpus))) 0

/-- The candidate filter of `BM25Index.query`: `score <= 0: continue`
and `where_filter and not _match_filter(...): continue`. -/
def bm25Keep (idx : BM25Idx) (wf : Option WhereFilter) (p : Nat × ℚ) : Bool :=
  decide (0 < p.2) &&
    (match wf with
      | some f => matchFilter (idx.doc_metadatas.getD p.1 []) f
      | none => true)

/-- The result-dict construction of `BM25Index.query` from a scored
document index. -/
def bm25MkItem (idx : BM25Idx) (p : Nat × ℚ) : RItem :=
  { id := idx.doc_ids.getD p.1 "", text := idx.doc_texts.getD p.1 "",
    metadata := idx.doc_metadatas.getD p.1 [], bm25_score := p.2 }

/-- The scores of `self.bm25.get_scores(tokenized_query)` over the
corpus. -/
def bm25AllScores (idx : BM25Idx) (idf : String → ℚ) (tq : List String) : List ℚ :=
  idx.tokenized_corpus.map (fun d => bm25Score idf idx.tokenized_corpus d tq)

/-- `BM25Index.query`: empty tokenized query returns `[]`; otherwise
score every document, keep strictly positive scores that satisfy the
filter, sort by descending score (stable) and truncate to `top_k`. -/
def bm25Query (idx : BM25Idx) (idf : String → ℚ) (question : String) (top_k : Nat)
    (wf : Option WhereFilter) : List RItem :=
  let tq := tokenize question
  if tq.isEmpty then []
  else
    let candidates := (bm25AllScores idx idf tq).enum.filter (bm25Keep idx wf)
    let sortedC := sortStable (fun a b : Nat × ℚ => decide (b.2 ≤ a.2)) candidates
    (sortedC.take top_k).map (bm25MkItem idx)

theorem bm25Score_eq_zero (idf : String → ℚ) (corpus : List (List String))
    (doc : List String) (query : List String)
    (h : ∀ t ∈ query, doc.count t = 0) : bm25Score idf corpus doc query = 0 := by
  unfold bm25Score
  have hgen : ∀ (qs : List String), (∀ t ∈ qs, doc.count t = 0) → ∀ acc : ℚ,
      qs.foldl (fun acc q =>
        acc + idf q * (((doc.count q : ℚ)) * (bm25_k1 + 1))
          / (((doc.count q : ℚ))
              + bm25_k1 * (1 - bm25_b + bm25_b * ((doc.length : ℚ)) / bm25AvgDl corpus))) acc
        = acc := by
    intro qs
    induction qs with
    | nil =>
      intro _ acc
      rfl
    | cons t rest ih =>
      intro hq acc
      rw [List.foldl_cons]
      have ht : doc.count t = 0 := hq t (List.mem_cons_self t rest)
      rw [ht]
      have hz : acc + idf t * (((0 : Nat) : ℚ) * (bm25_k1 + 1))
          / (((0 : Nat) : ℚ)
              + bm25_k1 * (1 - bm25_b + bm25_b * ((doc.length : ℚ)) / bm25AvgDl corpus)) = acc := by
        push_cast
        simp
      rw [hz]
      exact ih (fun t2 ht2 => hq t2 (List.mem_cons_of_mem t ht2)) acc
  exact hgen query h 0

theorem leB_snd_tot {α : Type} (a b : α × ℚ) :
    (decide (b.2 ≤ a.2)) = false → (decide (a.2 ≤ b.2)) = true := by
  intro h
  simp only [decide_eq_false_iff_not, not_le] at h
  simpa using le_of_lt h

theorem leB_snd_trans {α : Type} (a b c : α × ℚ) :
    (decide (b.2 ≤ a.2)) = true → (decide (c.2 ≤ b.2)) = true → (decide (c.2 ≤ a.2)) = true := by
  intro h1 h2
  simp only [decide_eq_true_eq] at h1 h2 ⊢
  exact le_trans h2 h1

/-- C5: on a built index, `BM25Index.query` returns only items with
strictly positive BM25 score satisfying every equality predicate of the
filter (including the `$and` combinator), in descending score order,
at most `top_k` of them; a chunk sharing no token with the query is
never returned (its score is exactly zero, whatever the idf table is);
and an empty tokenized query yields the empty list. -/
theorem bm25_query_correct (chunks : List IChunk) (idf : String → ℚ) (q : String)
    (top_k : Nat) (wf : Option WhereFilter) :
    (∀ item ∈ bm25Query (bm25Build chunks) idf q top_k wf,
        0 < item.bm25_score ∧ ∀ f, wf = some f → matchFilter item.metadata f = true)
    ∧ (bm25Query (bm25Build chunks) idf q top_k wf).Pairwise
        (fun a b => b.bm25_score ≤ a.bm25_score)
    ∧ (bm25Query (bm25Build chunks) idf q top_k wf).length ≤ top_k
    ∧ (∀ c ∈ chunks, (chunks.map (fun c2 => c2.id)).Nodup →
        (∀ t ∈ tokenize q, (tokenize c.text).count t = 0) →
        c.id ∉ (bm25Query (bm25Build chunks) idf q top_k wf).map (fun it => it.id))
    ∧ (tokenize q = [] → bm25Query (bm25Build chunks) idf q top_k wf = []) := by
  by_cases htq : (tokenize q).isEmpty = true
  · have hempty : bm25Query (bm25Build chunks) idf q top_k wf = [] := by
      unfold bm25Query
      rw [if_pos htq]
    rw [hempty]
    exact ⟨by simp, by simp, by simp, by simp, fun _ => rfl⟩
  · have hform : bm25Query (bm25Build chunks) idf q top_k wf
        = ((sortStable (fun a b : Nat × ℚ => decide (b.2 ≤ a.2))
            ((bm25AllScores (bm25Build chunks) idf (tokenize q)).enum.filter
              (bm25Keep (bm25Build chunks) wf))).take top_k).map
          (bm25MkItem (bm25Build chunks)) := by
      unfold bm25Query
      rw [if_neg htq]
    have hmem_cand : ∀ p : Nat × ℚ,
        p ∈ (sortStable (fun a b : Nat × ℚ => decide (b.2 ≤ a.2))
            ((bm25AllScores (bm25Build chunks) idf (tokenize q)).enum.filter
              (bm25Keep (bm25Build chunks) wf))).take top_k →
        p ∈ (bm25AllScores (bm25Build chunks) idf (tokenize q)).enum
          ∧ bm25Keep (bm25Build chunks) wf p = true := by
      intro p hp
      have hp2 := (sortStable_perm _ _).mem_iff.mp ((List.take_sublist top_k _).mem hp)
      exact ⟨(List.mem_filter.mp hp2).1, (List.mem_filter.mp hp2).2⟩
    refine ⟨?_, ?_, ?_, ?_, ?_⟩
    · intro item hitem
      rw [hform] at hitem
      obtain ⟨p, hp, hpe⟩ := List.mem_map.mp hitem
      obtain ⟨_, hpred⟩ := hmem_cand p hp
      unfold bm25Keep at hpred
      rw [Bool.and_eq_true] at hpred
      constructor
      · rw [← hpe]
        exact of_decide_eq_true hpred.1
      · intro f hwf
        subst hwf
        rw [← hpe]
        exact hpred.2
    · rw [hform, List.pairwise_map]
      have hsorted := sortStable_pairwise (fun a b : Nat × ℚ => decide (b.2 ≤ a.2))
        (fun a b => leB_snd_tot a b) (fun a b c => leB_snd_trans a b c)
        ((bm25AllScores (bm25Build chunks) idf (tokenize q)).enum.filter
          (bm25Keep (bm25Build chunks) wf))
      have hs : ((sortStable (fun a b : Nat × ℚ => decide (b.2 ≤ a.2))
          ((bm25AllScores (bm25Build chunks) idf (tokenize q)).enum.filter
            (bm25Keep (bm25Build chunks) wf))).take top_k).Pairwise
          (fun a b : Nat × ℚ => (decide (b.2 ≤ a.2)) = true) :=
        hsorted.sublist (List.take_sublist top_k _)
      exact hs.imp (fun hab => by simpa [bm25MkItem] using hab)
    · rw [hform, List.length_map]
      exact List.length_take_le _ _
    · intro c hc hnd htok hmem
      rw [hform, List.map_map] at hmem
      obtain ⟨p, hp, hpe⟩ := List.mem_map.mp hmem
      obtain ⟨j, s⟩ := p
      obtain ⟨henum, hpred⟩ := hmem_cand (j, s) hp
      unfold bm25Keep at hpred
      rw [Bool.and_eq_true] at hpred
      have hscore : (bm25AllScores (bm25Build chunks) idf (tokenize q))[j]? = some s :=
        List.mk_mem_enum_iff_getElem?.mp henum
      have hscore2 : (chunks.map (fun c2 =>
          bm25Score idf (bm25Build chunks).tokenized_corpus (tokenize c2.text) (tokenize q)))[j]?
            = some s := by
        rw [← hscore]
        unfold bm25AllScores
        rw [show (bm25Build chunks).tokenized_corpus = chunks.map (fun c2 => tokenize c2.text)
              from rfl, List.getElem?_map, List.getElem?_map, List.getElem?_map]
        cases chunks[j]? <;> rfl
      rw [List.getElem?_map] at hscore2
      cases hch : chunks[j]? with
      | none =>
        rw [hch] at hscore2
        simp at hscore2
      | some ch =>
        rw [hch, Option.map_some'] at hscore2
        have hs_eq : s = bm25Score idf (bm25Build chunks).tokenized_corpus
            (tokenize ch.text) (tokenize q) := (Option.some.inj hscore2).symm
        have hjlt : j < chunks.length := (List.getElem?_eq_some.mp hch).1
        have hid_j : (bm25MkItem (bm25Build chunks) (j, s)).id = ch.id := by
          show (bm25Build chunks).doc_ids.getD j "" = ch.id
          rw [show (bm25Build chunks).doc_ids = chunks.map (fun c2 => c2.id) from rfl,
              List.getD_eq_getElem?_getD, List.getElem?_map, hch]
          rfl
      
        have hcheq : ch = c := by
          obtain ⟨jc, hjc⟩ := List.getElem?_of_mem hc
          have hj2 : (chunks.map (fun c2 => c2.id))[j]? = some c.id := by
            rw [List.getElem?_map, hch, Option.map_some']
            have hcc : ch.id = c.id := by
              rw [← hid_j]
              exact hpe
            rw [hcc]
          have hr2 : (chunks.map (fun c2 => c2.id))[jc]? = some c.id := by
            rw [List.getElem?_map, hjc, Option.map_some']
          have hjlt2 : j < (chunks.map (fun c2 => c2.id)).length := by
            rw [List.length_map]
            exact hjlt
          have hjeq : j = jc := List.getElem?_inj hjlt2 hnd (hj2.trans hr2.symm)
          rw [hjeq] at hch
          exact (Option.some.inj (hch.symm.trans hjc).symm).symm
        have hzero : s = 0 := by
          rw [hs_eq, hcheq]
          exact bm25Score_eq_zero idf _ _ _ htok
        have hpos := of_decide_eq_true hpred.1
        rw [hzero] at hpos
        exact absurd hpos (lt_irrefl 0)
    · intro h
      exact absurd (by rw [h]; rfl) htq

/- ── Query Analyzer: extract_query_filters (src/rag/retriever.py) ── -/

def ATTACHMENT_HINTS : List String :=
  ["점수", "기준", "별지", "별첨", "첨부", "연수교육", "학술대회 목록"]

def needsAttachment (q : String) : Bool := ATTACHMENT_HINTS.any (fun kw => containsStr q kw)

/-- Specialty detection: exact names longest-first, then aliases. -/
def detectSpecialty (q : String) : Option String :=
  match (sortLenDesc SPECIALTIES).find? (fun sp => containsStr q sp) with
  | some sp => some sp
  | none =>
    (SPECIALTY_ALIASES.find? (fun pr => (sortLenDesc pr.2).any (fun al => containsStr q al))).map
      (fun pr => pr.1)

/-- Tail of `(\d)\s*[년연]\s*차` after the digit. -/
def yearPatTail (cs : List Char) : Bool :=
  match cs.dropWhile (fun c2 => c2.isWhitespace) with
  | c2 :: rest2 =>
    (c2 = '년' || c2 = '연') && ((rest2.dropWhile (fun c3 => c3.isWhitespace)).head? == some '차')
  | [] => false

/-- `re.search(r"(\d)\s*[년연]\s*차", question)`: captured digit of the
leftmost match. -/
def findYearDigit : List Char → Option Char
  | [] => none
  | ch :: rest => if ch.isDigit && yearPatTail rest then some ch else findYearDigit rest

def findYear (q : String) : Option Char := findYearDigit q.data

/-- `re.search(r"제\s*(\d+)\s*<target>", question)`: digits of the
leftmost match (`target` is `조` or `호`). -/
def findJeNum : Char → List Char → Option String
  | _, [] => none
  | target, ch :: rest =>
    if ch = '제' then
      let r1 := rest.dropWhile (fun c2 => c2.isWhitespace)
      let ds := r1.takeWhile (fun c2 => c2.isDigit)
      if !ds.isEmpty
          && (((r1.dropWhile (fun c2 => c2.isDigit)).dropWhile
              (fun c2 => c2.isWhitespace)).head? == some target) then
        some (String.mk ds)
      else findJeNum target rest
    else findJeNum target rest

/-- `re.search(r"부칙\s*제\d+호", question)`. -/
def buchikDecreePat : List Char → Bool
  | [] => false
  | ch :: rest =>
    (("부칙".data.isPrefixOf (ch :: rest)) &&
      (match ((ch :: rest).drop 2).dropWhile (fun c2 => c2.isWhitespace) with
        | '제' :: r2 =>
          let ds := r2.takeWhile (fun c2 => c2.isDigit)
          !ds.isEmpty && ((r2.dropWhile (fun c2 => c2.isDigit)).head? == some '호')
        | _ => false))
    || buchikDecreePat rest

def cat_keywords : List (String × String) :=
  [("환자취급", "환자취급범위"), ("교과내용", "교과내용"), ("교과 내용", "교과내용"),
   ("학술회의", "학술회의참석"), ("논문", "논문제출"), ("타과파견", "타과파견"),
   ("타과 파견", "타과파견"), ("기타", "기타요건")]

def detectCategory (q : String) : Option String :=
  (cat_keywords.find? (fun p => containsStr q p.1)).map (fun p => p.2)

def REGULATION_KEYWORDS : List String :=
  ["수련규정", "전문의수련규정", "전문의의 수련", "자격 인정"]

/-- The `is_regulation` flag: keyword hit, or (no specialty predicate
yet and a `제N조` pattern or the bare word `규정`), or a `부칙 제N호`
pattern. -/
def isRegulationQ (q : String) (hasSpec : Bool) : Bool :=
  (REGULATION_KEYWORDS.any (fun kw => containsStr q kw))
  || (!hasSpec && (findJeNum '조' q.data).isSome)
  || (!hasSpec && containsStr q "규정")
  || buchikDecreePat q.data

/-- The specialty predicate list appended by rules 1-2. -/
def specPreds (q : String) : List (String × String) :=
  match detectSpecialty q with
  | some sp => [("specialty", sp)]
  | none => []

/-- The year predicate of the `N년차` rule. -/
def yearPreds (q : String) : List (String × String) :=
  match findYear q with
  | some d => [("year", String.mk [d])]
  | none => []

def totalPreds (q : String) : List (String × String) :=
  if containsStr q "총계" then [("year", "총계")] else []

def notePreds (q : String) : List (String × String) :=
  if containsStr q "비고" then [("year", "비고")] else []

def catPreds (q : String) : List (String × String) :=
  match detectCategory q with
  | some cat => [("category", cat)]
  | none => []

/-- The regulation predicates: `doc_type` plus the 부칙/본문 category. -/
def regPreds (q : String) : List (String × String) :=
  if isRegulationQ q (!(specPreds q).isEmpty) then
    ("doc_type", "전문의수련규정") ::
      (if containsStr q "부칙" then [("category", "부칙")]
       else if (findJeNum '조' q.data).isSome then [("category", "본문")]
       else [])
  else []

/-- The general document-type predicate (skipped when the regulation
rule fired and the question mentions 부칙). -/
def genPreds (q : String) : List (String × String) :=
  if !(isRegulationQ q (!(specPreds q).isEmpty)) && containsStr q "부칙" then
    [("doc_type", "부칙")]
  else if containsStr q "총칙" then [("doc_type", "총칙")]
  else if containsStr q "인턴" then [("doc_type", "인턴수련")]
  else if containsStr q "교육목표" then [("doc_type", "교육목표")]
  else []

/-- The ordered `filters` list of `extract_query_filters`: on an
attachment hint, only the specialty predicate plus `doc_type = 첨부`;
otherwise specialty, year, 총계, 비고, category, regulation and general
document predicates in rule order. -/
def queryPreds (q : String) : List (String × String) :=
  if needsAttachment q then specPreds q ++ [("doc_type", "첨부")]
  else
    specPreds q ++ yearPreds q ++ totalPreds q ++ notePreds q ++ catPreds q
      ++ regPreds q ++ genPreds q

/-- The return shape of `extract_query_filters`: no predicate ⇒ no
filter, one predicate ⇒ a single field dict, several ⇒ `$and` of
single-field dicts. -/
def predsToFilter : List (String × String) → Option WhereFilter
  | [] => none
  | [p] => some (.fields [p])
  | ps => some (.andF (ps.map (fun p => .fields [p])))

/-- `extract_query_filters`. -/
def extract_query_filters (question : String) : Option WhereFilter :=
  predsToFilter (queryPreds question)

mutual

/-- All equality predicates mentioned by a filter. -/
def predsOf : WhereFilter → List (String × String)
  | .fields kvs => kvs
  | .andF conds => predsOfList conds

def predsOfList : List WhereFilter → List (String × String)
  | [] => []
  | f :: rest => predsOf f ++ predsOfList rest

end

def predsOfOpt : Option WhereFilter → List (String × String)
  | none => []
  | some f => predsOf f

theorem predsOfList_map_singleton (l : List (String × String)) :
    predsOfList (l.map (fun p => WhereFilter.fields [p])) = l := by
  induction l with
  | nil => rfl
  | cons p rest ih =>
    show predsOf (.fields [p]) ++ predsOfList (rest.map (fun p => WhereFilter.fields [p])) = p :: rest
    rw [ih]
    rfl

theorem predsOfOpt_predsToFilter (ps : List (String × String)) :
    predsOfOpt (predsToFilter ps) = ps := by
  match ps with
  | [] => rfl
  | [p] => rfl
  | p1 :: p2 :: rest =>
    show predsOfList ((p1 :: p2 :: rest).map (fun p => WhereFilter.fields [p])) = p1 :: p2 :: rest
    exact predsOfList_map_singleton (p1 :: p2 :: rest)

theorem find?_concat (p : α → Bool) (l1 l2 : List α) :
    (l1 ++ l2).find? p = optOr (l1.find? p) (l2.find? p) := by
  induction l1 with
  | nil => simp [optOr]
  | cons a rest ih =>
    cases hp : p a
    · rw [List.cons_append, List.find?_cons_of_neg _ (by simp [hp]),
          List.find?_cons_of_neg _ (by simp [hp]), ih]
    · rw [List.cons_append, List.find?_cons_of_pos _ hp, List.find?_cons_of_pos _ hp]
      simp [optOr]

def sortedSpecsA : List String :=
  ["정신건강의학과", "방사선종양학과", "마취통증의학과", "진단검사의학과", "직업환경의학과",
   "소아청소년과", "이비인후과", "영상의학과", "재활의학과", "예방의학과", "가정의학과",
   "응급의학과", "산부인과", "정형외과", "신경외과", "흉부외과"]

def sortedSpecsB : List String :=
  ["비뇨기과", "핵의학과", "피부과", "신경과", "결핵과", "병리과", "내과", "외과", "안과"]

theorem sorted_specialties_decomp :
    sortLenDesc SPECIALTIES = sortedSpecsA ++ "성형외과" :: sortedSpecsB := by
  decide

theorem detectSpecialty_ne_oegwa (q : String) (h : containsStr q "성형외과" = true) :
    detectSpecialty q ≠ some "외과" := by
  unfold detectSpecialty
  cases hf : (sortLenDesc SPECIALTIES).find? (fun sp => containsStr q sp) with
  | some sp =>
    intro hcontra
    have hsp : sp = "외과" := by simpa using hcontra
    subst hsp
    rw [sorted_specialties_decomp, find?_concat] at hf
    cases hfa : sortedSpecsA.find? (fun sp => containsStr q sp) with
    | some x =>
      rw [hfa] at hf
      simp only [optOr] at hf
      have hx : x = "외과" := Option.some.inj hf
      have hmem := List.mem_of_find?_eq_some hfa
      rw [hx] at hmem
      exact absurd hmem (by decide)
    | none =>
      rw [hfa] at hf
      simp only [optOr] at hf
      rw [List.find?_cons_of_pos _ h] at hf
      exact absurd (Option.some.inj hf) (by decide)
  | none =>
    intro hcontra
    simp only [Option.map_eq_some'] at hcontra
    obtain ⟨pr, hpr, hpr1⟩ := hcontra
    have hmem := List.mem_of_find?_eq_some hpr
    have h2 : pr.1 = "병리과" ∨ pr.1 = "이비인후과" := by
      simp only [SPECIALTY_ALIASES, List.mem_cons, List.not_mem_nil, or_false,
        List.mem_singleton] at hmem
      rcases hmem with rfl | rfl
      · exact Or.inl rfl
      · exact Or.inr rfl
    rcases h2 with h2 | h2 <;> rw [h2] at hpr1
    · exact absurd hpr1 (by decide)
    · exact absurd hpr1 (by decide)

/-- C6: the question `내과 2년차 교과내용` yields exactly the
conjunction of `specialty = 내과`, `year = "2"`, `category = 교과내용`;
and specialty detection prefers the longest matching name, so a question
containing `성형외과` never yields the predicate `specialty = 외과`. -/
theorem extract_query_filters_correct :
    (extract_query_filters "내과 2년차 교과내용"
      = some (.andF [.fields [("specialty", "내과")], .fields [("year", "2")],
          .fields [("category", "교과내용")]]))
    ∧ (∀ q : String, containsStr q "성형외과" = true →
        ("specialty", "외과") ∉ predsOfOpt (extract_query_filters q)) := by
  constructor
  · rfl
  · intro q h hmem
    rw [show extract_query_filters q = predsToFilter (queryPreds q) from rfl,
        predsOfOpt_predsToFilter] at hmem
    have hspec : ("specialty", "외과") ∉ specPreds q := by
      unfold specPreds
      cases hd : detectSpecialty q with
      | none => simp
      | some sp =>
        intro hm
        have heq := List.mem_singleton.mp hm
        have hsp : sp = "외과" := (congrArg Prod.snd heq).symm
        exact detectSpecialty_ne_oegwa q h (by rw [hd, hsp])
    have hyear : ("specialty", "외과") ∉ yearPreds q := by
      unfold yearPreds
      cases findYear q with
      | none => simp
      | some d =>
        intro hm
        have hk : "specialty" = "year" := congrArg Prod.fst (List.mem_singleton.mp hm)
        exact absurd hk (by decide)
    have htot : ("specialty", "외과") ∉ totalPreds q := by
      unfold totalPreds
      by_cases hc : containsStr q "총계" = true
      · rw [if_pos hc]
        decide
      · rw [if_neg hc]
        decide
    have hnote : ("specialty", "외과") ∉ notePreds q := by
      unfold notePreds
      by_cases hc : containsStr q "비고" = true
      · rw [if_pos hc]
        decide
      · rw [if_neg hc]
        decide
    have hcat : ("specialty", "외과") ∉ catPreds q := by
      unfold catPreds
      cases detectCategory q with
      | none => simp
      | some cat =>
        intro hm
        have hk : "specialty" = "category" := congrArg Prod.fst (List.mem_singleton.mp hm)
        exact absurd hk (by decide)
    have hreg : ("specialty", "외과") ∉ regPreds q := by
      unfold regPreds
      by_cases hr : isRegulationQ q (!(specPreds q).isEmpty) = true
      · rw [if_pos hr]
        intro hm
        rcases List.mem_cons.mp hm with heq | hm2
        · exact absurd (congrArg Prod.fst heq) (by decide)
        · by_cases h1 : containsStr q "부칙" = true
          · rw [if_pos h1] at hm2
            exact absurd (congrArg Prod.fst (List.mem_singleton.mp hm2)) (by decide)
          · rw [if_neg h1] at hm2
            by_cases h2 : (findJeNum '조' q.data).isSome = true
            · rw [if_pos h2] at hm2
              exact absurd (congrArg Prod.fst (List.mem_singleton.mp hm2)) (by decide)
            · rw [if_neg h2] at hm2
              exact absurd hm2 (by decide)
      · rw [if_neg hr]
        decide
    have hgen : ("specialty", "외과") ∉ genPreds q := by
      unfold genPreds
      by_cases h1 : (!(isRegulationQ q (!(specPreds q).isEmpty)) && containsStr q "부칙") = true
      · rw [if_pos h1]
        intro hm
        exact absurd (congrArg Prod.fst (List.mem_singleton.mp hm)) (by decide)
      · rw [if_neg h1]
        by_cases h2 : containsStr q "총칙" = true
        · rw [if_pos h2]
          intro hm
          exact absurd (congrArg Prod.fst (List.mem_singleton.mp hm)) (by decide)
        · rw [if_neg h2]
          by_cases h3 : containsStr q "인턴" = true
          · rw [if_pos h3]
            intro hm
            exact absurd (congrArg Prod.fst (List.mem_singleton.mp hm)) (by decide)
          · rw [if_neg h3]
            by_cases h4 : containsStr q "교육목표" = true
            · rw [if_pos h4]
              intro hm
              exact absurd (congrArg Prod.fst (List.mem_singleton.mp hm)) (by decide)
            · rw [if_neg h4]
              decide
    unfold queryPreds at hmem
    by_cases hatt : needsAttachment q = true
    · rw [if_pos hatt] at hmem
      rcases List.mem_append.mp hmem with hm | hm
      · exact hspec hm
      · exact absurd (congrArg Prod.fst (List.mem_singleton.mp hm)) (by decide)
    · rw [if_neg hatt] at hmem
      rcases List.mem_append.mp hmem with hm | hm
      case _ =>
        rcases List.mem_append.mp hm with hm2 | hm2
        case _ =>
          rcases List.mem_append.mp hm2 with hm3 | hm3
          case _ =>
            rcases List.mem_append.mp hm3 with hm4 | hm4
            case _ =>
              rcases List.mem_append.mp hm4 with hm5 | hm5
              case _ =>
                rcases List.mem_append.mp hm5 with hm6 | hm6
                case _ => exact hspec hm6
                case _ => exact hyear hm6
              case _ => exact htot hm5
            case _ => exact hnote hm4
          case _ => exact hcat hm3
        case _ => exact hreg hm2
      case _ => exact hgen hm

/-- Witness for the longest-match conjunct of
`extract_query_filters_correct`. -/
theorem extract_query_filters_correct_witness :
    containsStr "성형외과 2년차" "성형외과" = true
    ∧ ("specialty", "외과") ∉ predsOfOpt (extract_query_filters "성형외과 2년차") :=
  ⟨by decide, extract_query_filters_correct.2 "성형외과 2년차" (by decide)⟩

def bm25WitnessChunks : List IChunk :=
  [{ id := "c1", text := "심장 수술 전담 과정", metadata := [("specialty", "내과")] },
   { id := "c2", text := "행정 문서 일반", metadata := [("specialty", "외과")] },
   { id := "c3", text := "수술 참여 기록", metadata := [("specialty", "내과")] }]

def bm25WitnessFilter : WhereFilter := .fields [("specialty", "내과")]

/-- Witness for `bm25_query_correct` at a concrete three-chunk index. -/
theorem bm25_query_correct_witness :
    (bm25Query (bm25Build bm25WitnessChunks) (fun _ => 1) "수술" 5
        (some bm25WitnessFilter)).length ≤ 5
    ∧ ∀ item ∈ bm25Query (bm25Build bm25WitnessChunks) (fun _ => 1) "수술" 5
        (some bm25WitnessFilter),
        0 < item.bm25_score
          ∧ ∀ f, (some bm25WitnessFilter : Option WhereFilter) = some f →
              matchFilter item.metadata f = true :=
  ⟨(bm25_query_correct bm25WitnessChunks (fun _ => 1) "수술" 5 (some bm25WitnessFilter)).2.2.1,
   (bm25_query_correct bm25WitnessChunks (fun _ => 1) "수술" 5 (some bm25WitnessFilter)).1⟩

/- ── Hybrid Retriever (src/rag/retriever.py) ──

The Chroma collection is the external collaborator: `col.query` returns
the parsed result items (the dict-of-parallel-lists unpacking of
`_query` is collapsed into this boundary) or raises, and `col.get`
returns the document/metadata for an id, nothing, or raises.  Raising
Python calls are modelled in `Except Unit`. -/

structure Col where
  query : String → Nat → Option WhereFilter → Except Unit (List RItem)
  get : String → Except Unit (Option (String × List (String × String)))

/-- `_query`: on an exception of the filtered query, retry once without
the filter; a failure of the unfiltered query propagates. -/
def queryCol (col : Col) (question : String) (top_k : Nat)
    (wf : Option WhereFilter) : Except Unit (List RItem) :=
  match wf with
  | some f =>
    match col.query question top_k (some f) with
    | .ok r => .ok r
    | .error _ => col.query question top_k none
  | none => col.query question top_k none

def QUERY_SYNONYMS : List (String × List String) :=
  [("교과내용", ["교육과정", "수련내용"]), ("교육과정", ["교과내용", "수련내용"]),
   ("수련내용", ["교과내용", "교육과정"]), ("환자취급범위", ["진료범위", "환자진료범위"]),
   ("환자취급", ["환자진료", "진료범위"]), ("학술회의참석", ["학술대회 참석", "학회 참석"]),
   ("학술회의", ["학술대회", "학회"]), ("논문제출", ["논문 발표", "학술논문"]),
   ("타과파견", ["타과 순환", "타과 로테이션"]), ("기타요건", ["추가요건", "기타 조건"]),
   ("교과과정", ["교육과정", "수련과정", "커리큘럼"]), ("수련", ["교육", "훈련"]),
   ("목표", ["교육목표", "교육 목표"]), ("년차", ["연차"]), ("연차", ["년차"]),
   ("수련규정", ["전문의수련규정", "수련 규정"]), ("전문의수련규정", ["수련규정", "전문의 수련규정"]),
   ("수련병원", ["수련기관", "지정병원"]), ("수련기관", ["수련병원"]), ("전공의", ["레지던트", "수련의"])]

def REFORMULATIONS : List (String × String) :=
  [("알려줘", "관련 내용"), ("알려주세요", "관련 내용"), ("어떻게 되나요?", "관련 내용"),
   ("무엇인가요?", "관련 내용"), ("뭐야?", "관련 내용"), ("뭐야", "관련 내용"),
   ("은?", " 관련 내용"), ("는?", " 관련 내용"), ("이?", " 관련 내용")]

def sortedSynKeys : List String := sortLenDesc (QUERY_SYNONYMS.map (fun p => p.1))

/-- Variation 1: substitute the first (longest-first) matching synonym
key by its primary synonym, once. -/
def synVariation (question : String) : String :=
  match sortedSynKeys.find? (fun term => containsStr question term) with
  | some term =>
    match List.lookup term QUERY_SYNONYMS with
    | some syns => replaceFirst question term (syns.headD "")
    | none => question
  | none => question

/-- Variation 3: like variation 1 but skipping the first matching key. -/
def synVariation2 (question : String) : String :=
  match sortedSynKeys.filter (fun term => containsStr question term) with
  | _ :: t2 :: _ =>
    match List.lookup t2 QUERY_SYNONYMS with
    | some syns => replaceFirst question t2 (syns.headD "")
    | none => question
  | _ => question

/-- Python `s.replace(old, new)` (all occurrences, non-empty `old`),
with the source length as structural fuel. -/
def replaceAllFuel (old new : List Char) : Nat → List Char → List Char
  | 0, cs => cs
  | _ + 1, [] => []
  | fuel + 1, c :: rest =>
    if old.isPrefixOf (c :: rest) && !old.isEmpty then
      new ++ replaceAllFuel old new fuel ((c :: rest).drop old.length)
    else c :: replaceAllFuel old new fuel rest

def replaceAll (s old new : String) : String :=
  ⟨replaceAllFuel old.data new.data s.data.length s.data⟩

/-- Variation 2: the first matching interrogative pattern is replaced
(all occurrences) and the result stripped. -/
def reformulated (question : String) : String :=
  match REFORMULATIONS.find? (fun pr => containsStr question pr.1) with
  | some pr => strTrim (replaceAll question pr.1 pr.2)
  | none => question

/-- `_generate_query_variations`: up to `n` distinct variants, in the
order synonym / reformulation / second synonym, discarding duplicates
and variants equal to the question. -/
def generateQueryVariations (question : String) (n : Nat) : List String :=
  let v1 := synVariation question
  let variations : List String := if v1 ≠ question then [v1] else []
  let ref := reformulated question
  let variations := if ref ≠ question ∧ ref ∉ variations then variations ++ [ref] else variations
  let variations := if variations.length < n then
      let syn2 := synVariation2 question
      if syn2 ≠ question ∧ syn2 ∉ variations then variations ++ [syn2] else variations
    else variations
  variations.take n

/-- Sequential model of `executor.map(run_query, all_queries)`: the
tasks are independent; iterating the results re-raises the first
failure. -/
def exceptMapQ (f : String → Except Unit (List RItem)) : List String → Except Unit (List (List RItem))
  | [] => .ok []
  | q :: rest =>
    match f q with
    | .error e => .error e
    | .ok r =>
      match exceptMapQ f rest with
      | .error e => .error e
      | .ok rs => .ok (r :: rs)

/-- The best-distance dict update of `_multi_query` (existing key keeps
its position and is replaced only by a strictly smaller distance; a new
key is appended). -/
def bestUpd : List (String × RItem) → RItem → List (String × RItem)
  | [], it => [(it.id, it)]
  | (k, old) :: rest, it =>
    if k = it.id then
      (if it.distance < old.distance then (k, it) else (k, old)) :: rest
    else (k, old) :: bestUpd rest it

/-- `_multi_query`: query every variant (original first), merge by id
keeping the smallest distance, sort ascending by distance (stable),
truncate. -/
def multiQuery (col : Col) (question : String) (top_k : Nat)
    (wf : Option WhereFilter) : Except Unit (List RItem) :=
  if !MULTI_QUERY_ENABLED then queryCol col question top_k wf
  else
    match exceptMapQ (fun q2 => queryCol col q2 top_k wf)
        (question :: generateQueryVariations question (MULTI_QUERY_COUNT - 1)) with
    | .error e => .error e
    | .ok all_results =>
      let best := all_results.foldl (fun b rs => rs.foldl bestUpd b) []
      .ok ((sortStable (fun a b : RItem => decide (a.distance ≤ b.distance))
        (best.map (fun p => p.2))).take top_k)

def docMapAdd : List (String × RItem) → RItem → List (String × RItem)
  | [], it => [(it.id, it)]
  | (k, old) :: rest, it =>
    if k = it.id then (k, old) :: rest else (k, old) :: docMapAdd rest it

def lookupItem : List (String × RItem) → String → Option RItem
  | [], _ => none
  | (k, it) :: rest, a => if k = a then some it else lookupItem rest a

/-- `_reciprocal_rank_fusion` on result items: scores over ids (shared
with `rrfScores`), first-occurrence doc map, stable descending sort of
ids by fused score, truncation, and the `pop` of the `bm25_score` /
`distance` keys (modelled by resetting them to their defaults). -/
def reciprocalRankFusion (vres bres : List RItem) (top_k : Nat) : List RItem :=
  let scores := rrfScores (vres.map (fun it => it.id)) (bres.map (fun it => it.id))
  let doc_map := bres.foldl docMapAdd (vres.foldl docMapAdd [])
  let sorted_ids := (sortStable (fun a b : String × ℚ => decide (b.2 ≤ a.2)) scores).map
    (fun p => p.1)
  (sorted_ids.take top_k).filterMap (fun did =>
    (lookupItem doc_map did).map (fun it => { it with distance := 0, bm25_score := 0 }))

/-- `_is_attachment_filter`. -/
def isAttachmentFilter : WhereFilter → Bool
  | .fields kvs => List.lookup "doc_type" kvs == some "첨부"
  | .andF conds => conds.any (fun c =>
      match c with
      | .fields kvs => List.lookup "doc_type" kvs == some "첨부"
      | .andF _ => false)

/-- `_extract_specialty_filter`. -/
def extractSpecialtyFilter : WhereFilter → Option WhereFilter
  | .fields kvs =>
    match List.lookup "specialty" kvs with
    | some v => some (.fields [("specialty", v)])
    | none => none
  | .andF conds => conds.find? (fun c =>
      match c with
      | .fields kvs => (List.lookup "specialty" kvs).isSome
      | .andF _ => false)

/-- `where_filter.get("$and", []) if "$and" in where_filter else [where_filter]`. -/
def filterList : WhereFilter → List WhereFilter
  | .andF conds => conds
  | f => [f]

def getDocTypeF : WhereFilter → Option String
  | .fields kvs => List.lookup "doc_type" kvs
  | .andF _ => none

def getYearF : WhereFilter → Option String
  | .fields kvs => List.lookup "year" kvs
  | .andF _ => none

def isRegFilter : Option WhereFilter → Bool
  | none => false
  | some f => (filterList f).any (fun c => getDocTypeF c == some "전문의수련규정")

/-- `has_year`: the filter pins one of the numeric years `1..4`. -/
def hasSpecificYear : Option WhereFilter → Bool
  | none => false
  | some f => (filterList f).any (fun c =>
      (getYearF c == some "1") || (getYearF c == some "2")
        || (getYearF c == some "3") || (getYearF c == some "4"))

def digitsToNat (ds : List Char) : Nat :=
  ds.foldl (fun acc c => acc * 10 + (c.toNat - '0'.toNat)) 0

/-- `re.search(r"(\d+)", s)`: the first digit run as a number. -/
def firstNumIn (cs : List Char) : Option Nat :=
  let cs2 := cs.dropWhile (fun c => !c.isDigit)
  if cs2.isEmpty then none else some (digitsToNat (cs2.takeWhile (fun c => c.isDigit)))

def dropThroughChar (sep : Char) : List Char → Option (List Char)
  | [] => none
  | c :: rest => if c = sep then some rest else dropThroughChar sep rest

/-- `doc_id.split("_", 1)[-1]`. -/
def afterFirstUS (s : String) : String :=
  match dropThroughChar '_' s.data with
  | some rest => ⟨rest⟩
  | none => s

/-- `_regulation_sort_key`. -/
def regulationSortKey (item : RItem) : Nat × Nat :=
  ((if List.lookup "category" item.metadata == some "본문" then 0 else 1),
   (firstNumIn (afterFirstUS item.id).data).getD 999)

def regLeB (a b : RItem) : Bool :=
  decide ((regulationSortKey a).1 < (regulationSortKey b).1
    ∨ ((regulationSortKey a).1 = (regulationSortKey b).1
        ∧ (regulationSortKey a).2 ≤ (regulationSortKey b).2))

def YEAR_ORDER : List (String × Nat) :=
  [("1", 0), ("2", 1), ("3", 2), ("4", 3), ("총계", 4), ("비고", 5)]

def yearOrderKey (item : RItem) : Nat :=
  (List.lookup ((List.lookup "year" item.metadata).getD "") YEAR_ORDER).getD 99

def yearLeB (a b : RItem) : Bool := decide (yearOrderKey a ≤ yearOrderKey b)

/-- The direct article/decree lookup of `retrieve` (the exception of
`col.get` is caught and falls through). -/
def directLookup (col : Col) (question : String) : Option RItem :=
  if containsStr question "부칙" && (findJeNum '호' question.data).isSome then
    match col.get ("전문의수련규정_부칙_제" ++ (findJeNum '호' question.data).getD "" ++ "호") with
    | .ok (some (txt, md)) =>
      some { id := "전문의수련규정_부칙_제" ++ (findJeNum '호' question.data).getD "" ++ "호",
             text := txt, metadata := md }
    | _ => none
  else if (findJeNum '조' question.data).isSome && !(containsStr question "부칙") then
    match col.get ("전문의수련규정_제" ++ (findJeNum '조' question.data).getD "" ++ "조") with
    | .ok (some (txt, md)) =>
      some { id := "전문의수련규정_제" ++ (findJeNum '조' question.data).getD "" ++ "조",
             text := txt, metadata := md }
    | _ => none
  else none

/-- Step 1b/2 of `retrieve`: RRF fusion of the multi-query vector items
with the lexical items (`HYBRID_SEARCH_ENABLED`), else truncation. -/
def fusedItems (vector_items : List RItem) (bidx : BM25Idx) (idf : String → ℚ)
    (question : String) (fetch_k top_k : Nat) (wf : Option WhereFilter) : List RItem :=
  if HYBRID_SEARCH_ENABLED then
    reciprocalRankFusion vector_items (bm25Query bidx idf question fetch_k wf) top_k
  else vector_items.take top_k

def needsAttCompletion (items : List RItem) (wf : Option WhereFilter) : Bool :=
  !(items.any (fun r => List.lookup "doc_type" r.metadata == some "첨부"))
  && !(items.any (fun r => List.lookup "doc_type" r.metadata == some "전문의수련규정"))
  && (match wf with
      | some f => !(isAttachmentFilter f)
      | none => false)

def attachmentFilterFor (wf : Option WhereFilter) : WhereFilter :=
  match (match wf with | some f => extractSpecialtyFilter f | none => none) with
  | some sf => .andF [sf, .fields [("doc_type", "첨부")]]
  | none => .fields [("doc_type", "첨부")]

/-- Year-scoped pruning: with a pinned numeric year, drop results whose
year metadata is a sentinel. -/
def prunedItems (wf : Option WhereFilter) (items : List RItem) : List RItem :=
  if hasSpecificYear wf then
    items.filter (fun r => !(List.lookup "year" r.metadata == some "총계")
      && !(List.lookup "year" r.metadata == some "비고"))
  else items

/-- Final ordering: regulation order if any regulation result, else
year order. -/
def finalSort (items : List RItem) : List RItem :=
  if items.any (fun r => List.lookup "doc_type" r.metadata == some "전문의수련규정") then
    sortStable regLeB items
  else sortStable yearLeB items

/-- Steps 2–4 of `retrieve` on the fused first-stage `items`:
attachment completion (appending close attachments, `distance < 1.5`),
year-sentinel pruning, final ordering. -/
def retrieveTail (col : Col) (question : String) (wf : Option WhereFilter)
    (items : List RItem) : Except Unit (List RItem) :=
  match (if needsAttCompletion items wf then
      queryCol col question 2 (some (attachmentFilterFor wf))
    else .ok []) with
  | .error e => .error e
  | .ok att_items =>
    .ok (finalSort (prunedItems wf
      (items ++ att_items.filter (fun it => decide (it.distance < 3 / 2)))))

/-- The non-direct path of `retrieve`. -/
def retrieveMain (col : Col) (bidx : BM25Idx) (idf : String → ℚ) (question : String)
    (top_k : Nat) (wf : Option WhereFilter) : Except Unit (List RItem) :=
  match multiQuery col question (top_k * BM25_TOP_K_MULTIPLIER) wf with
  | .error e => .error e
  | .ok vector_items =>
    retrieveTail col question wf (fusedItems vector_items bidx idf question
      (top_k * BM25_TOP_K_MULTIPLIER) top_k wf)

/-- `retrieve`. -/
def retrieve (col : Col) (bidx : BM25Idx) (idf : String → ℚ) (question : String)
    (top_k : Nat) : Except Unit (List RItem) :=
  let wf := extract_query_filters question
  match (if isRegFilter wf then directLookup col question else none) with
  | some item => .ok [item]
  | none => retrieveMain col bidx idf question top_k wf

section RetrieverLemmas

theorem exceptMapQ_ok (f : String → Except Unit (List RItem)) (l : List String)
    (h : ∀ x ∈ l, ∃ r, f x = .ok r) : ∃ rs, exceptMapQ f l = .ok rs := by
  induction l with
  | nil => exact ⟨[], rfl⟩
  | cons q rest ih =>
    obtain ⟨r, hr⟩ := h q (List.mem_cons_self q rest)
    obtain ⟨rs, hrs⟩ := ih (fun x hx => h x (List.mem_cons_of_mem q hx))
    exact ⟨r :: rs, by simp [exceptMapQ, hr, hrs]⟩

theorem queryCol_ok_of_unfiltered (col : Col) (q : String) (k : Nat)
    (wf : Option WhereFilter) (h : ∃ items, col.query q k none = .ok items) :
    ∃ items, queryCol col q k wf = .ok items := by
  cases wf with
  | none => exact h
  | some f =>
    cases hf : col.query q k (some f) with
    | ok r => exact ⟨r, by simp [queryCol, hf]⟩
    | error e =>
      obtain ⟨items, hitems⟩ := h
      exact ⟨items, by simp [queryCol, hf, hitems]⟩

theorem multiQuery_ok (col : Col) (q : String) (k : Nat) (wf : Option WhereFilter)
    (hqc : ∀ q2, ∃ its, queryCol col q2 k wf = .ok its) :
    ∃ res, multiQuery col q k wf = .ok res := by
  obtain ⟨rs, hrs⟩ := exceptMapQ_ok (fun q2 => queryCol col q2 k wf)
    (q :: generateQueryVariations q (MULTI_QUERY_COUNT - 1)) (fun x _ => hqc x)
  cases hm : multiQuery col q k wf with
  | ok res => exact ⟨res, rfl⟩
  | error e =>
    exfalso
    revert hm
    simp [multiQuery, MULTI_QUERY_ENABLED, hrs]

theorem retrieveTail_ok (col : Col) (q : String) (wf : Option WhereFilter)
    (items : List RItem) (hqc : ∀ wf2, ∃ its, queryCol col q 2 wf2 = .ok its) :
    ∃ res, retrieveTail col q wf items = .ok res := by
  unfold retrieveTail
  by_cases hna : needsAttCompletion items wf = true
  · rw [if_pos hna]
    obtain ⟨its, hits⟩ := hqc (some (attachmentFilterFor wf))
    rw [hits]
    exact ⟨_, rfl⟩
  · rw [if_neg hna]
    exact ⟨_, rfl⟩

theorem retrieveMain_ok (col : Col) (bidx : BM25Idx) (idf : String → ℚ)
    (q : String) (k : Nat) (wf : Option WhereFilter)
    (hqc : ∀ q2 k2 wf2, ∃ its, queryCol col q2 k2 wf2 = .ok its) :
    ∃ res, retrieveMain col bidx idf q k wf = .ok res := by
  obtain ⟨vres, hv⟩ := multiQuery_ok col q (k * BM25_TOP_K_MULTIPLIER) wf
    (fun q2 => hqc q2 (k * BM25_TOP_K_MULTIPLIER) wf)
  have hre : retrieveMain col bidx idf q k wf
      = (match multiQuery col q (k * BM25_TOP_K_MULTIPLIER) wf with
         | .error e => .error e
         | .ok vi => retrieveTail col q wf
             (fusedItems vi bidx idf q (k * BM25_TOP_K_MULTIPLIER) k wf)) := rfl
  rw [hre, hv]
  exact retrieveTail_ok col q wf _ (fun wf2 => hqc q 2 wf2)

end RetrieverLemmas

def c10Item : RItem := { id := "x", text := "t", metadata := [("specialty", "외과")] }

/-- A collection whose filtered queries always raise while unfiltered
queries return one fixed item that does not match the filter. -/
def c10Col : Col :=
  { query := fun _ _ wf =>
      match wf with
      | some _ => .error ()
      | none => .ok [c10Item],
    get := fun _ => .ok none }

/-- C10: when the filtered vector query raises, `_query` retries the
same query once without the filter and returns the unfiltered results;
consequently (second conjunct, at a concrete collection) the vector
side can return items that do not satisfy the inferred filter. -/
theorem query_filter_fallback (col : Col) (q : String) (k : Nat) (f : WhereFilter)
    (items : List RItem)
    (herr : col.query q k (some f) = .error ())
    (hok : col.query q k none = .ok items) :
    queryCol col q k (some f) = .ok items
    ∧ ∃ (col2 : Col) (f2 : WhereFilter) (it : RItem) (its : List RItem),
        col2.query "q" 1 (some f2) = .error ()
        ∧ queryCol col2 "q" 1 (some f2) = .ok its
        ∧ it ∈ its ∧ matchFilter it.metadata f2 = false := by
  refine ⟨?_, c10Col, WhereFilter.fields [("specialty", "내과")], c10Item, [c10Item],
    rfl, rfl, List.mem_singleton.mpr rfl, rfl⟩
  have h1 : queryCol col q k (some f)
      = (match col.query q k (some f) with
         | .ok r => .ok r
         | .error _ => col.query q k none) := rfl
  rw [h1, herr]
  exact hok

theorem query_filter_fallback_witness :
    c10Col.query "q" 1 (some (WhereFilter.fields [("specialty", "내과")])) = .error ()
    ∧ c10Col.query "q" 1 none = .ok [c10Item]
    ∧ queryCol c10Col "q" 1 (some (WhereFilter.fields [("specialty", "내과")]))
        = .ok [c10Item] :=
  ⟨rfl, rfl,
   (query_filter_fallback c10Col "q" 1 (WhereFilter.fields [("specialty", "내과")])
     [c10Item] rfl rfl).1⟩

/-- A collection that answers only the literal question `교과내용` and
raises on every other query text (filtered or not). -/
def c4Col : Col :=
  { query := fun q2 _ _ => if q2 = "교과내용" then .ok [] else .error (),
    get := fun _ => .ok none }

/-- C4 counterexample: the question `교과내용` produces the single
variant `교육과정`; its vector query raises (also on the unfiltered
retry), and the multi-query merge does not complete — the whole
`retrieve` call propagates the exception instead of returning the
results of the remaining queries. -/
theorem variant_failure_aborts_retrieval :
    generateQueryVariations "교과내용" (MULTI_QUERY_COUNT - 1) = ["교육과정"]
    ∧ c4Col.query "교과내용" (TOP_K * BM25_TOP_K_MULTIPLIER) none = .ok []
    ∧ multiQuery c4Col "교과내용" (TOP_K * BM25_TOP_K_MULTIPLIER)
        (extract_query_filters "교과내용") = .error ()
    ∧ retrieve c4Col (bm25Build []) (fun _ => 1) "교과내용" TOP_K = .error () :=
  ⟨rfl, rfl, rfl, rfl⟩

/-- C4 (amended): a failure of a filtered variant query alone never
aborts retrieval — whenever every unfiltered query on the collection
succeeds, `retrieve` completes with a result list, whatever the
filtered queries do.  Only a variant whose unfiltered retry also raises
propagates out of the multi-query merge. -/
theorem retrieve_ok_of_unfiltered_ok (col : Col) (bidx : BM25Idx) (idf : String → ℚ)
    (question : String) (top_k : Nat)
    (hq : ∀ q2 k2, ∃ items, col.query q2 k2 none = .ok items) :
    ∃ res, retrieve col bidx idf question top_k = .ok res := by
  have hqc : ∀ q2 k2 wf2, ∃ its, queryCol col q2 k2 wf2 = .ok its :=
    fun q2 k2 wf2 => queryCol_ok_of_unfiltered col q2 k2 wf2 (hq q2 k2)
  have hre : retrieve col bidx idf question top_k
      = (match (if isRegFilter (extract_query_filters question) then
            directLookup col question else none) with
         | some item => .ok [item]
         | none => retrieveMain col bidx idf question top_k
             (extract_query_filters question)) := rfl
  rw [hre]
  cases hd : (if isRegFilter (extract_query_filters question) then
      directLookup col question else none) with
  | some item => exact ⟨[item], rfl⟩
  | none =>
    exact retrieveMain_ok col bidx idf question top_k
      (extract_query_filters question) hqc

/-- A collection that returns the empty result for every query and
holds no document. -/
def okEmptyCol : Col := { query := fun _ _ _ => .ok [], get := fun _ => .ok none }

theorem retrieve_ok_of_unfiltered_ok_witness :
    (∀ q2 k2, ∃ items, okEmptyCol.query q2 k2 none = .ok items)
    ∧ ∃ res, retrieve okEmptyCol (bm25Build []) (fun _ => 1) "교과내용" TOP_K = .ok res :=
  ⟨fun _ _ => ⟨[], rfl⟩,
   retrieve_ok_of_unfiltered_ok okEmptyCol (bm25Build []) (fun _ => 1) "교과내용" TOP_K
     (fun _ _ => ⟨[], rfl⟩)⟩

theorem mem_finalSort (r : RItem) (l : List RItem) : r ∈ finalSort l ↔ r ∈ l := by
  unfold finalSort
  by_cases h : (l.any (fun r =>
      List.lookup "doc_type" r.metadata == some "전문의수련규정")) = true
  · rw [if_pos h]
    exact (sortStable_perm regLeB l).mem_iff
  · rw [if_neg h]
    exact (sortStable_perm yearLeB l).mem_iff

theorem mem_prunedItems (wf : Option WhereFilter) (l : List RItem) (r : RItem)
    (hyear : hasSpecificYear wf = true) (hr : r ∈ prunedItems wf l) :
    ¬(List.lookup "year" r.metadata = some "총계")
      ∧ ¬(List.lookup "year" r.metadata = some "비고") := by
  unfold prunedItems at hr
  rw [if_pos hyear] at hr
  have h := (List.mem_filter.mp hr).2
  simp only [Bool.and_eq_true, Bool.not_eq_true', beq_eq_false_iff_ne, ne_eq] at h
  exact h

theorem directLookup_none (col : Col) (q : String)
    (hget : ∀ did, col.get did = .ok none ∨ col.get did = .error ()) :
    directLookup col q = none := by
  unfold directLookup
  by_cases h1 : (containsStr q "부칙" && (findJeNum '호' q.data).isSome) = true
  · rw [if_pos h1]
    rcases hget ("전문의수련규정_부칙_제" ++ (findJeNum '호' q.data).getD "" ++ "호")
      with h | h <;> rw [h]
  · rw [if_neg h1]
    by_cases h2 : ((findJeNum '조' q.data).isSome && !(containsStr q "부칙")) = true
    · rw [if_pos h2]
      rcases hget ("전문의수련규정_제" ++ (findJeNum '조' q.data).getD "" ++ "조")
        with h | h <;> rw [h]
    · rw [if_neg h2]

theorem retrieveTail_prune (col : Col) (q : String) (wf : Option WhereFilter)
    (base items : List RItem) (hyear : hasSpecificYear wf = true)
    (hres : retrieveTail col q wf base = .ok items) :
    ∀ r ∈ items, ¬(List.lookup "year" r.metadata = some "총계")
      ∧ ¬(List.lookup "year" r.metadata = some "비고") := by
  unfold retrieveTail at hres
  cases hatt : (if needsAttCompletion base wf then
      queryCol col q 2 (some (attachmentFilterFor wf)) else .ok []) with
  | error e => rw [hatt] at hres; exact absurd hres (by simp)
  | ok att_items =>
    rw [hatt] at hres
    have hitems : items = finalSort (prunedItems wf
        (base ++ att_items.filter (fun it => decide (it.distance < 3 / 2)))) :=
      (Except.ok.inj hres).symm
    intro r hr
    rw [hitems] at hr
    exact mem_prunedItems wf _ r hyear ((mem_finalSort r _).mp hr)

theorem retrieveMain_prune (col : Col) (bidx : BM25Idx) (idf : String → ℚ)
    (q : String) (k : Nat) (wf : Option WhereFilter) (items : List RItem)
    (hyear : hasSpecificYear wf = true)
    (hres : retrieveMain col bidx idf q k wf = .ok items) :
    ∀ r ∈ items, ¬(List.lookup "year" r.metadata = some "총계")
      ∧ ¬(List.lookup "year" r.metadata = some "비고") := by
  unfold retrieveMain at hres
  cases hv : multiQuery col q (k * BM25_TOP_K_MULTIPLIER) wf with
  | error e => rw [hv] at hres; exact absurd hres (by simp)
  | ok vi =>
    rw [hv] at hres
    exact retrieveTail_prune col q wf _ items hyear hres

/-- A collection that answers the regulation-article id
`전문의수련규정_제5조` on `get` with a chunk whose year metadata is the
sentinel `총계`, as an ingested regulation chunk may carry. -/
def c7Col : Col :=
  { query := fun _ _ _ => .ok [],
    get := fun did => if did = "전문의수련규정_제5조"
        then .ok (some ("조문 내용", [("doc_type", "전문의수련규정"), ("year", "총계")]))
        else .ok none }

/-- C7 counterexample: the question `수련규정 3년차 제5조` pins the
specific year `3` in its inferred filter, yet the regulation
direct-lookup path returns its chunk before the year pruning runs, so
the final list contains a chunk with sentinel year `총계`. -/
theorem year_pruning_counterexample :
    hasSpecificYear (extract_query_filters "수련규정 3년차 제5조") = true
    ∧ ∃ r, retrieve c7Col (bm25Build []) (fun _ => 1) "수련규정 3년차 제5조" TOP_K
          = .ok [r]
        ∧ List.lookup "year" r.metadata = some "총계" :=
  ⟨rfl,
   ⟨{ id := "전문의수련규정_제5조", text := "조문 내용",
      metadata := [("doc_type", "전문의수련규정"), ("year", "총계")] }, rfl, rfl⟩⟩

/-- C7 (amended): year-scoped pruning holds on every retrieval that
does not return through the regulation direct-lookup shortcut — here
guaranteed by a collection whose `get` never finds a document: for a
question whose inferred filter pins a specific year `1`–`4`, no
returned item carries sentinel year metadata (`총계` or `비고`). -/
theorem year_pruning_correct (col : Col) (bidx : BM25Idx) (idf : String → ℚ)
    (question : String) (top_k : Nat) (items : List RItem)
    (hget : ∀ did, col.get did = .ok none ∨ col.get did = .error ())
    (hyear : hasSpecificYear (extract_query_filters question) = true)
    (hres : retrieve col bidx idf question top_k = .ok items) :
    ∀ r ∈ items, ¬(List.lookup "year" r.metadata = some "총계")
      ∧ ¬(List.lookup "year" r.metadata = some "비고") := by
  have hdl : directLookup col question = none := directLookup_none col question hget
  have hif : (if isRegFilter (extract_query_filters question) then
      directLookup col question else none) = none := by
    by_cases h : isRegFilter (extract_query_filters question) = true
    · rw [if_pos h]; exact hdl
    · rw [if_neg h]
  have hre : retrieve col bidx idf question top_k
      = (match (if isRegFilter (extract_query_filters question) then
            directLookup col question else none) with
         | some item => .ok [item]
         | none => retrieveMain col bidx idf question top_k
             (extract_query_filters question)) := rfl
  rw [hre, hif] at hres
  exact retrieveMain_prune col bidx idf question top_k
    (extract_query_filters question) items hyear hres

theorem year_pruning_correct_witness :
    (∀ did, okEmptyCol.get did = .ok none ∨ okEmptyCol.get did = .error ())
    ∧ hasSpecificYear (extract_query_filters "내과 3년차 교과내용") = true
    ∧ retrieve okEmptyCol (bm25Build []) (fun _ => 1) "내과 3년차 교과내용" TOP_K
        = .ok []
    ∧ (∀ r ∈ ([] : List RItem), ¬(List.lookup "year" r.metadata = some "총계")
        ∧ ¬(List.lookup "year" r.metadata = some "비고")) :=
  ⟨fun _ => Or.inl rfl, rfl, rfl,
   year_pruning_correct okEmptyCol (bm25Build []) (fun _ => 1) "내과 3년차 교과내용"
     TOP_K [] (fun _ => Or.inl rfl) rfl rfl⟩

/- ── Module singleton of src/rag/bm25_index.py ──

`_bm25_instance` is a module global mutated by `rebuild_bm25_index` in
three statements: `_bm25_instance = BM25Index(path)` (a fresh instance
whose `bm25` attribute is `None` and whose corpus lists are empty),
`_bm25_instance.build(chunks)`, `_bm25_instance.save()` (a disk write,
the in-memory instance unchanged).  The observable in-memory states at
the statement boundaries form the trace below; `none` stands for an
unset global. -/

inductive BMInst where
  | unbuilt
  | built (chunks : List IChunk)
deriving DecidableEq

/-- The module-global states observable after each statement of
`rebuild_bm25_index(chunks)`. -/
def rebuildStates (chunks : List IChunk) : List (Option BMInst) :=
  [some .unbuilt, some (.built chunks), some (.built chunks)]

/-- `get_bm25_index`: when the global is unset, construct an instance
and `load()` it from disk (an absent file leaves `bm25 = None`);
otherwise return the global as it currently is. -/
def getBM25 (disk : Option (List IChunk)) : Option BMInst → BMInst
  | some inst => inst
  | none =>
    match disk with
    | some ch => .built ch
    | none => .unbuilt

/-- `BM25Index.query` on an instance: `if self.bm25 is None: return []`,
else the scored-and-filtered query over the built corpus. -/
def instQuery (inst : BMInst) (idf : String → ℚ) (q : String) (k : Nat)
    (wf : Option WhereFilter) : List RItem :=
  match inst with
  | .unbuilt => []
  | .built ch => bm25Query (bm25Build ch) idf q k wf

def c9OldChunk : IChunk := { id := "old", text := "이전 코퍼스", metadata := [] }

def c9NewChunk : IChunk := { id := "new", text := "새 코퍼스", metadata := [] }

/-- C9 counterexample: during `rebuild_bm25_index`, after the global
assignment but before `build`, a concurrent `get_bm25_index` returns
the fresh instance, which is neither the previous index nor the new
fully-built one — its queries all answer empty. -/
theorem bm25_rebuild_counterexample :
    ¬ (∀ s ∈ rebuildStates [c9NewChunk],
        getBM25 (some [c9OldChunk]) s = BMInst.built [c9OldChunk]
          ∨ getBM25 (some [c9OldChunk]) s = BMInst.built [c9NewChunk]) := by
  intro h
  rcases h (some BMInst.unbuilt) (List.mem_cons_self _ _) with h2 | h2 <;>
    exact BMInst.noConfusion h2

/-- C9 (amended): the rebuild publishes a fresh unbuilt instance before
building it.  A reader holding the pre-rebuild global still sees the
old built index; a reader during the rebuild trace observes either an
unbuilt instance — every query of which returns the empty list — or
the new fully-built index; a torn instance (partial corpus) is never
observable. -/
theorem bm25_rebuild_states (old chunks : List IChunk) (disk : Option (List IChunk)) :
    getBM25 disk (some (BMInst.built old)) = BMInst.built old
    ∧ ∀ s ∈ rebuildStates chunks,
        (getBM25 disk s = BMInst.unbuilt
          ∧ ∀ idf q k wf, instQuery (getBM25 disk s) idf q k wf = [])
        ∨ getBM25 disk s = BMInst.built chunks := by
  refine ⟨rfl, ?_⟩
  intro s hs
  simp only [rebuildStates, List.mem_cons, List.not_mem_nil, or_false] at hs
  rcases hs with h | h | h <;> subst h
  · exact Or.inl ⟨rfl, fun _ _ _ _ => rfl⟩
  · exact Or.inr rfl
  · exact Or.inr rfl
